import Mathlib

/-!
# Verification of the Qlik pivot/hypercube extraction engine

Shallow embedding of the data-extraction core of the repository:

* `src/src/api/clients/qlik_engine.py` — `QlikEngineClient`
  (`send_request`, `_flatten_pivot_node`, `get_pivot_data`, `_extract_ym`)
* `src/src/api/repositories/app_repository.py` — `AppRepository.get_object_data`

Engine I/O is modelled by oracles (functions from request parameters to the
engine's response), state by explicit state passing, and Python exceptions by
`Except`.  Python `dict`s that are built by successive `d[k] = v` assignments
are modelled as association lists with in-place overwrite, which preserves
Python's key insertion order.
-/

set_option autoImplicit false

namespace QlikSpec

/-! ## Python string primitives -/

/-- The ASCII whitespace characters removed by Python's `str.strip()`. -/
def pyIsSpace (c : Char) : Bool :=
  c = ' ' || c = '\t' || c = '\n' || c = '\r' || c = '\x0b' || c = '\x0c'

/-- `str.strip()` on a character list. -/
def pyStripChars (cs : List Char) : List Char :=
  ((cs.dropWhile pyIsSpace).reverse.dropWhile pyIsSpace).reverse

/-- Python `str.strip()`. -/
def pyStrip (s : String) : String :=
  (pyStripChars s.data).asString

/-- Python `str.lower()` (ASCII). -/
def pyLower (s : String) : String :=
  (s.data.map Char.toLower).asString

/-- Does `hay` start with `needle`? -/
def listStartsWith : List Char → List Char → Bool
  | _, [] => true
  | [], _ :: _ => false
  | c :: cs, d :: ds => c = d && listStartsWith cs ds

/-- Does `hay` contain `needle` as a contiguous substring
(Python's `needle in hay`)? -/
def listHasSub : List Char → List Char → Bool
  | [], needle => needle.isEmpty
  | c :: rest, needle => listStartsWith (c :: rest) needle || listHasSub rest needle

/-- Python `needle in hay` on strings. -/
def strHasSub (hay needle : String) : Bool :=
  listHasSub hay.data needle.data

/-! ## `_extract_ym` — date-to-year-month extraction
(`qlik_engine.py` lines 1344-1373).

The four regexes, in the order tried by the source:

* `_us_date  = ^(\d{1,2})/(\d{1,2})/(\d{4})$`
* `_ru_date  = ^(\d{1,2})[./](\d{1,2})[./](\d{4})$`
* `_iso_date = ^(\d{4})-(\d{2})-\d{2}`   (unanchored at the right: prefix match)
* `_ym_dot   = ^(\d{4})\.(\d{2})`        (prefix match)

Each `\d{1,2}` group is a maximal digit run of length 1 or 2 followed by a
non-digit separator, and each trailing `\d{4}$` is exactly four digits at the
end of the string, so greedy matching with backtracking is equivalent to the
deterministic parsers below. -/

/-- The separator class `[./]` of `_ru_date`. -/
def isRuSep (c : Char) : Bool := c = '.' || c = '/'

/-- `_us_date`: `^(\d{1,2})/(\d{1,2})/(\d{4})$`, returning the three groups. -/
def matchUS (cs : List Char) : Option (List Char × List Char × List Char) :=
  let p1 := cs.span Char.isDigit
  if p1.1.length = 0 || p1.1.length > 2 then none else
  match p1.2 with
  | '/' :: r2 =>
    let p2 := r2.span Char.isDigit
    if p2.1.length = 0 || p2.1.length > 2 then none else
    match p2.2 with
    | '/' :: r4 =>
      let p3 := r4.span Char.isDigit
      if p3.1.length = 4 && p3.2.isEmpty then some (p1.1, p2.1, p3.1) else none
    | _ => none
  | _ => none

/-- `_ru_date`: `^(\d{1,2})[./](\d{1,2})[./](\d{4})$`.  Note that the two
separators are matched independently, so mixed `.`/`/` inputs match. -/
def matchRU (cs : List Char) : Option (List Char × List Char × List Char) :=
  let p1 := cs.span Char.isDigit
  if p1.1.length = 0 || p1.1.length > 2 then none else
  match p1.2 with
  | s1 :: r2 =>
    if isRuSep s1 then
      let p2 := r2.span Char.isDigit
      if p2.1.length = 0 || p2.1.length > 2 then none else
      match p2.2 with
      | s2 :: r4 =>
        if isRuSep s2 then
          let p3 := r4.span Char.isDigit
          if p3.1.length = 4 && p3.2.isEmpty then some (p1.1, p2.1, p3.1) else none
        else none
      | [] => none
    else none
  | [] => none

/-- `_iso_date`: `^(\d{4})-(\d{2})-\d{2}` — a prefix match; anything may
follow the day. -/
def matchISO (cs : List Char) : Option (List Char × List Char) :=
  match cs with
  | a :: b :: c :: d :: '-' :: e :: f :: '-' :: g :: h :: _ =>
    if a.isDigit && b.isDigit && c.isDigit && d.isDigit &&
       e.isDigit && f.isDigit && g.isDigit && h.isDigit
    then some ([a, b, c, d], [e, f]) else none
  | _ => none

/-- `_ym_dot`: `^(\d{4})\.(\d{2})` — a prefix match. -/
def matchYM (cs : List Char) : Option (List Char × List Char) :=
  match cs with
  | a :: b :: c :: d :: '.' :: e :: f :: _ =>
    if a.isDigit && b.isDigit && c.isDigit && d.isDigit && e.isDigit && f.isDigit
    then some ([a, b, c, d], [e, f]) else none
  | _ => none

/-- Python `str.zfill(2)` for a group of length 1 or 2. -/
def zfill2 (g : List Char) : String :=
  if g.length = 1 then "0" ++ g.asString else g.asString

/-- `_extract_ym` (`qlik_engine.py` lines 1355-1373): strip, then try the four
patterns in order, mapping each hit to `"YYYY.MM"`. -/
def extractYm (val : String) : Option String :=
  let s := pyStripChars val.data
  match matchUS s with
  | some g => some (g.2.2.asString ++ "." ++ zfill2 g.1)
  | none =>
  match matchRU s with
  | some g => some (g.2.2.asString ++ "." ++ zfill2 g.2.1)
  | none =>
  match matchISO s with
  | some g => some (g.1.asString ++ "." ++ g.2.asString)
  | none =>
  match matchYM s with
  | some g => some (g.1.asString ++ "." ++ g.2.asString)
  | none => none

/-! ## Cells, rows and JSON payload shapes

A Qlik data cell is a JSON object with optional `qText`, `qNum`, `qElemNo`
keys.  `qNum` is either absent/`None` or a JSON number; the source only ever
uses it through `str(num_val)`, so it is modelled by its Python string form.
`qElemNo` is read with default `-2` (`cell.get("qElemNo", -2)`), so an absent
element id is encoded as `-2` here. -/

structure QCell where
  qText : String := ""
  qNum : Option String := none
  qElemNo : Int := -2
deriving DecidableEq

/-- A value stored in a flattened output row: either the numeric `qNum`
value (kept as its Python string form) or a `qText` fallback.  `pyStr`
gives `str(v)` for either case. -/
inductive RVal where
  | num (s : String)
  | txt (s : String)
deriving DecidableEq

/-- Python `str(v)` on a row value. -/
def RVal.pyStr : RVal → String
  | .num s => s
  | .txt s => s

/-- An element of a JSON cell list: a dict cell, or a non-dict scalar
(the source branches on `isinstance(cell, dict)`). -/
inductive QD where
  | cell (c : QCell)
  | raw (v : RVal)
deriving DecidableEq

/-- One entry of `qData`: either a list of cells or a non-list value
(the source branches on `isinstance(data_cells, list)`; a non-list entry
contributes no measure keys). -/
inductive QDataRow where
  | cells (cs : List QD)
  | scalar
deriving DecidableEq

/-- One entry of `qLeft`: a dict (text, element id, optional `qSubNodes`
children), a list of cells, or some other JSON value. -/
inductive QLeft where
  | node (qText : String) (qElemNo : Int) (qSubNodes : List QLeft)
  | cellList (cs : List QD)
  | other

/-- An output row: a Python dict from display label to value, built by
successive `row[label] = value` assignments.  Modelled as an association
list in key insertion order with in-place overwrite. -/
abbrev Row := List (String × RVal)

/-- Python dict assignment `r[k] = v`: overwrite in place if the key exists,
else append. -/
def rowSet (r : Row) (k : String) (v : RVal) : Row :=
  if r.any (fun p => p.1 = k) then
    r.map (fun p => if p.1 = k then (k, v) else p)
  else r ++ [(k, v)]

/-- Python `r.get(k)` as an option. -/
def rowGet (r : Row) (k : String) : Option RVal :=
  (r.find? (fun p => p.1 = k)).map (fun p => p.2)

/-- Python `str(r.get(k, ""))`. -/
def rowGetStr (r : Row) (k : String) : String :=
  match rowGet r k with
  | some v => v.pyStr
  | none => ""

/-- The dict's key list, in insertion order. -/
def rowKeys (r : Row) : List String := r.map (fun p => p.1)

/-- The dict's value list (`r.values()`), in key insertion order. -/
def rowValues (r : Row) : List RVal := r.map (fun p => p.2)

/-! ## Measure-cell conversion

Three slightly different numeric-vs-text rules appear in the source and are
modelled separately:

* pivot flattener and session hypercube: text fallback when `qNum` is absent
  or `str(qNum).lower()` is one of `nan`/`inf`/`-inf`;
* direct hypercube reader (`app_repository.py` line 843): text fallback only
  when `qNum` is absent or `str(qNum).lower() == "nan"` — `inf` is kept. -/

/-- `qNum`-vs-`qText` rule of `_flatten_pivot_node` (lines 1098-1103), the
flat branch (lines 1286-1291) and the session path (lines 635-639). -/
def measCellVal (c : QCell) : RVal :=
  match c.qNum with
  | some s =>
    if pyLower s = "nan" || pyLower s = "inf" || pyLower s = "-inf"
    then .txt c.qText else .num s
  | none => .txt c.qText

/-- `qNum`-vs-`qText` rule of the direct hypercube reader
(`app_repository.py` lines 842-844): only `nan` falls back to text. -/
def directMeasVal (c : QCell) : RVal :=
  match c.qNum with
  | some s => if pyLower s = "nan" then .txt c.qText else .num s
  | none => .txt c.qText

/-! ## Pivot tree flattener — `_flatten_pivot_node`
(`qlik_engine.py` lines 1054-1114).

The Python recursion carries a shared mutable `data_idx_ref` cursor and an
output accumulator; here the cursor is threaded explicitly and the emitted
rows are returned.  Reaching a `qLeft` entry that is not a dict raises an
`AttributeError` in Python (caught by `get_pivot_data`'s blanket handler),
modelled by `Except.error`. -/

/-- `dim_labels[i] if i < len(dim_labels) else f"dim{i}"`. -/
def dimLabelAt (dimLabels : List String) (i : Nat) : String :=
  dimLabels.getD i ("dim" ++ toString i)

/-- `meas_labels[i] if i < len(meas_labels) else f"measure{i}"`
(tree-branch fallback). -/
def measLabelTree (measLabels : List String) (i : Nat) : String :=
  measLabels.getD i ("measure" ++ toString i)

/-- `meas_labels[i] if i < len(meas_labels) else f"m{i}"`
(flat-branch fallback). -/
def measLabelFlat (measLabels : List String) (i : Nat) : String :=
  measLabels.getD i ("m" ++ toString i)

/-- The value a `qData` cell contributes: the numeric-or-text rule for dict
cells, the value itself for non-dict cells (lines 1097-1105 / 1285-1293). -/
def qdValue : QD → RVal
  | .cell c => measCellVal c
  | .raw v => v

/-- Add the measure cells of one `qData` row to a row under construction,
with the given per-index label rule (lines 1092-1105 / 1282-1293). -/
def addMeasures (labelAt : Nat → String) (row : Row) (d : QDataRow) : Row :=
  match d with
  | .cells cs =>
    (cs.enum).foldl (fun r p => rowSet r (labelAt p.1) (qdValue p.2)) row
  | .scalar => row

/-- Build the dimension part of a leaf row: one key per path entry
(lines 1086-1089). -/
def leafDimRow (dimLabels : List String) (newPath : List String) : Row :=
  (newPath.enum).foldl (fun r p => rowSet r (dimLabelAt dimLabels p.1) (.txt p.2)) []

/-- One leaf of the pivot tree: emit the dimension path and, if the data
cursor is in range, the matching `qData` measure row (advancing the cursor). -/
def leafRow (dimLabels measLabels : List String) (qData : List QDataRow)
    (newPath : List String) (idx : Nat) : Row × Nat :=
  let dimRow := leafDimRow dimLabels newPath
  match qData[idx]? with
  | some d => (addMeasures (measLabelTree measLabels) dimRow d, idx + 1)
  | none => (dimRow, idx)

mutual

/-- `_flatten_pivot_node`: depth-first traversal emitting one row per leaf. -/
def flattenNode (dimLabels measLabels : List String) (qData : List QDataRow) :
    QLeft → List String → Nat → Except String (List Row × Nat)
  | QLeft.node txt _ subs, path, idx =>
    let newPath := path ++ [txt]
    match subs with
    | [] =>
      let p := leafRow dimLabels measLabels qData newPath idx
      .ok ([p.1], p.2)
    | s :: ss => flattenKids dimLabels measLabels qData (s :: ss) newPath idx
  | QLeft.cellList _, _, _ => .error "AttributeError: list object has no attribute get"
  | QLeft.other, _, _ => .error "AttributeError: object has no attribute get"

/-- Traverse a list of sibling nodes left to right, threading the data
cursor (the `for child in sub_nodes` loop, and the top-level
`for top_node in q_left` loop with `path = []`). -/
def flattenKids (dimLabels measLabels : List String) (qData : List QDataRow) :
    List QLeft → List String → Nat → Except String (List Row × Nat)
  | [], _, idx => .ok ([], idx)
  | k :: ks, path, idx =>
    match flattenNode dimLabels measLabels qData k path idx with
    | .error e => .error e
    | .ok p =>
      match flattenKids dimLabels measLabels qData ks path p.2 with
      | .error e => .error e
      | .ok q => .ok (p.1 ++ q.1, q.2)

end

mutual

/-- The number of leaves of a pivot tree entry (each leaf emits one row). -/
def leafCount : QLeft → Nat
  | QLeft.node _ _ [] => 1
  | QLeft.node _ _ (s :: ss) => leafCountList (s :: ss)
  | QLeft.cellList _ => 0
  | QLeft.other => 0

/-- Total leaf count of a list of tree entries. -/
def leafCountList : List QLeft → Nat
  | [] => 0
  | k :: ks => leafCount k + leafCountList ks

end

/-! ## Flat/sparse branch of `get_pivot_data` (lines 1255-1295)

`current_dim_values: Dict[int, str]` is the per-column carried-forward map;
a cell updates its column only when it supplies a non-placeholder element id
(`qElemNo != -2`) or non-empty text. -/

/-- The carried-forward map. -/
abbrev Carried := List (Nat × String)

/-- `current_dim_values.get(i, "")`. -/
def carriedGet (m : Carried) (i : Nat) : String :=
  match m.find? (fun p => p.1 = i) with
  | some p => p.2
  | none => ""

/-- `current_dim_values[i] = t`. -/
def carriedSet (m : Carried) (i : Nat) (t : String) : Carried :=
  (i, t) :: m.filter (fun p => p.1 ≠ i)

/-- `if elem != -2 or text: current_dim_values[i] = text` (lines 1267/1276-1277). -/
def carriedUpd (m : Carried) (i : Nat) (text : String) (elem : Int) : Carried :=
  if elem ≠ -2 || text ≠ "" then carriedSet m i text else m

/-- Dimension part of one flat-branch row (lines 1264-1279), returning the
partial row and the updated carried map. -/
def flatDimPart (dimLabels : List String) (carried : Carried) : QLeft → Row × Carried
  | QLeft.node txt elem _ =>
    let carried2 := carriedUpd carried 0 txt elem
    let label := dimLabels.headD "Dimension"
    (rowSet [] label (.txt (carriedGet carried2 0)), carried2)
  | QLeft.cellList cs =>
    (cs.enum).foldl
      (fun acc p =>
        match p.2 with
        | .cell c =>
          let carried2 := carriedUpd acc.2 p.1 c.qText c.qElemNo
          (rowSet acc.1 (dimLabelAt dimLabels p.1) (.txt (carriedGet carried2 p.1)), carried2)
        | .raw _ => acc)
      ([], carried)
  | QLeft.other => ([], carried)

/-- The flat-branch loop `for left_cell, data_cells in zip(q_left, q_data)`. -/
def flatRowsGo (dimLabels measLabels : List String) :
    List (QLeft × QDataRow) → Carried → List Row
  | [], _ => []
  | (e, d) :: rest, carried =>
    let p := flatDimPart dimLabels carried e
    let row := addMeasures (measLabelFlat measLabels) p.1 d
    row :: flatRowsGo dimLabels measLabels rest p.2

/-- All rows of the flat/sparse branch. -/
def flatRows (dimLabels measLabels : List String)
    (qLeft : List QLeft) (qData : List QDataRow) : List Row :=
  flatRowsGo dimLabels measLabels (qLeft.zip qData) []

/-! ## Client-side filtering in `get_pivot_data` (lines 1304-1394) -/

/-- The per-row scan of the date-extraction fallback (lines 1381-1386):
`matched` starts `False`; the first value whose `_extract_ym` is not `None`
decides the row and stops the scan. -/
def rowScanCode (selStrs : List String) : List RVal → Bool
  | [] => false
  | v :: vs =>
    match extractYm v.pyStr with
    | some ym => selStrs.contains ym
    | none => rowScanCode selStrs vs

/-- One pass of the `for sel_field, sel_values in selections.items()` loop:
exact-match filter when the key names a dimension field or label, otherwise
the date-extraction fallback. -/
def clientFilterStep (dimFields dimLabels : List String) (rows : List Row)
    (sel : String × List RVal) : List Row :=
  let selStrs := sel.2.map RVal.pyStr
  match (dimFields.zip dimLabels).find? (fun p => p.1 = sel.1 || p.2 = sel.1) with
  | some p => rows.filter (fun r => selStrs.contains (rowGetStr r p.2))
  | none => rows.filter (fun r => rowScanCode selStrs (rowValues r))

/-- The whole selections loop. -/
def clientFilter (dimFields dimLabels : List String)
    (sels : List (String × List RVal)) (rows : List Row) : List Row :=
  sels.foldl (clientFilterStep dimFields dimLabels) rows

/-! ## `get_pivot_data` (`qlik_engine.py` lines 1116-1424)

The engine interaction is abstracted by `PivotEnv`: the dimension/measure
metadata recovered from `GetProperties`, the `qcy` total from `GetLayout`,
and a fetch oracle mapping the requested `(qTop, qHeight, qWidth)` window to
the `qDataPages` of the `GetHyperCubePivotData` response.  The `bookmark_id`
parameter only mutates engine state (`ApplyBookmark`), which the oracle
already reflects, so it does not appear in the pure result. -/

/-- One page of a `GetHyperCubePivotData` response. -/
structure PivotPage where
  qLeft : List QLeft
  qData : List QDataRow

/-- Engine-visible state of the pivot object.

* `dims`: per dimension, `qFieldLabels[0]` and `qFieldDefs[0]` from
  `GetProperties` (`none` encodes the `[None]` default).
* `measures`: per measure, `qLabel` and `qDef` (with the source's `""`
  defaults already applied).
* `totalRows`: `qSize.qcy` from `GetLayout`.
* `fetch top height width`: the `qDataPages` list of the pivot-data call. -/
structure PivotEnv where
  dims : List (Option String × Option String)
  measures : List (String × String)
  totalRows : Nat
  fetch : Nat → Nat → Nat → List PivotPage

/-- `x if x else ""` — `None` and `""` are both falsy. -/
def strOf (o : Option String) : String := o.getD ""

/-- Python truthiness of an optional string. -/
def truthy (o : Option String) : Bool := strOf o ≠ ""

/-- `dim_fields` (line 1179): `field if field else ""`. -/
def pivotDimFields (env : PivotEnv) : List String :=
  env.dims.map (fun d => strOf d.2)

/-- `dim_labels` (line 1180): `label if label else (field if field else "")`. -/
def pivotDimLabels (env : PivotEnv) : List String :=
  env.dims.map (fun d => if truthy d.1 then strOf d.1 else strOf d.2)

/-- `meas_labels` (lines 1183-1186):
`label if label else (expr if expr else f"Measure_{i}")`. -/
def pivotMeasLabels (env : PivotEnv) : List String :=
  (env.measures.enum).map
    (fun p =>
      if p.2.1 ≠ "" then p.2.1
      else if p.2.2 ≠ "" then p.2.2
      else "Measure_" ++ toString p.1)

/-- The pagination block of a page result. -/
structure Pagination where
  page : Nat
  pageSize : Nat
  totalRows : Nat
  totalPages : Nat
  hasNext : Bool
  hasPrevious : Bool
deriving DecidableEq

/-- A page result of `get_pivot_data`. -/
structure PivotResult where
  objectId : String
  data : List Row
  pagination : Pagination
deriving DecidableEq

/-- `uses_tree_format` (lines 1238-1243): the first `qLeft` entry is a dict
with non-empty `qSubNodes`. -/
def usesTreeFormat (qLeft : List QLeft) : Bool :=
  match qLeft.head? with
  | some (QLeft.node _ _ (_ :: _)) => true
  | _ => false

/-- Flatten the first returned data page: tree branch when
`usesTreeFormat`, else the flat/sparse branch. -/
def flattenPage (dimLabels measLabels : List String) (pg : PivotPage) :
    Except String (List Row) :=
  if usesTreeFormat pg.qLeft then
    match flattenKids dimLabels measLabels pg.qData pg.qLeft [] 0 with
    | .error e => .error e
    | .ok p => .ok p.1
  else .ok (flatRows dimLabels measLabels pg.qLeft pg.qData)

/-- `get_pivot_data`.  `page` is 1-based (the HTTP layer validates
`page >= 1`, `1 <= page_size <= 10000` before any engine call). -/
def getPivotData (env : PivotEnv) (objectId : String) (page pageSize : Nat)
    (selections : List (String × List RVal)) (_bookmarkId : Option String) :
    Except String PivotResult :=
  let dimFields := pivotDimFields env
  let dimLabels := pivotDimLabels env
  let measLabels := pivotMeasLabels env
  let nMeas := measLabels.length
  if env.totalRows = 0 then
    .ok ⟨objectId, [], ⟨page, pageSize, 0, 1, false, false⟩⟩
  else
    let needAllRows : Bool := selections ≠ []
    let fetchHeight := if needAllRows then env.totalRows else pageSize
    let fetchOffset := if needAllRows then 0 else (page - 1) * pageSize
    let pages := env.fetch fetchOffset fetchHeight (max nMeas 1)
    let flatRes : Except String (List Row) :=
      match pages.head? with
      | none => .ok []
      | some pg => flattenPage dimLabels measLabels pg
    match flatRes with
    | .error e => .error e
    | .ok rows =>
      let filtered := clientFilter dimFields dimLabels selections rows
      let totalFiltered := filtered.length
      if needAllRows then
        let totalPages := if totalFiltered > 0 then (totalFiltered + pageSize - 1) / pageSize else 1
        let offset := (page - 1) * pageSize
        .ok ⟨objectId, (filtered.drop offset).take pageSize,
             ⟨page, pageSize, totalFiltered, totalPages,
              decide (page < totalPages), decide (page > 1)⟩⟩
      else
        let totalPages := (env.totalRows + pageSize - 1) / pageSize
        .ok ⟨objectId, filtered,
             ⟨page, pageSize, env.totalRows, totalPages,
              decide (page < totalPages), decide (page > 1)⟩⟩

/-! ## `AppRepository.get_object_data` (`app_repository.py` lines 368-912)

Engine responses are abstracted by `ObjEnv`; engine side effects are
reported as an ordered action trace.  Here all the metadata-reading calls
(`GetObject`, `GetLayout`, `GetFullPropertyTree`) are assumed to succeed and
their results are part of the environment; the calls whose failure the
source handles specially (`CreateSessionObject` region, data fetches) are
`Except`-valued oracles. -/

/-- `qDimensionInfo` entry of the object's hypercube layout. -/
structure DimInfo where
  qFallbackTitle : String := ""
  qGroupFieldDefs : List String := []
deriving DecidableEq

/-- `qMeasureInfo` entry of the layout. -/
structure MeasInfo where
  qFallbackTitle : String := ""
deriving DecidableEq

/-- A `qMeasures` entry of `GetFullPropertyTree`'s `qHyperCubeDef`:
`qDef.qDef`, `qDef.qLabel` and `qLibraryId`, with the `""` defaults applied. -/
structure MeasDef where
  expr : String := ""
  label : String := ""
  libraryId : String := ""
deriving DecidableEq

/-- A measure definition passed to the session hypercube: either the full
original definition (preserving library references) or a generated
`"[label]"` field-reference string (lines 551/563). -/
inductive SMeas where
  | full (m : MeasDef)
  | fieldRef (s : String)
deriving DecidableEq

/-- Engine-visible state for one `get_object_data` call. -/
structure ObjEnv where
  /-- State backing the nested `get_pivot_data` call of the collapsed path. -/
  pivot : PivotEnv
  /-- `qSize.qcy` of the object's layout (total rows). -/
  qcy : Nat
  /-- `qSize.qcx` of the object's layout (visible columns). -/
  qcx : Nat
  /-- `qDimensionInfo` of the layout. -/
  dimInfo : List DimInfo
  /-- `qMeasureInfo` of the layout. -/
  measInfo : List MeasInfo
  /-- `qHyperCubeDef.qMeasures` of `GetFullPropertyTree`. -/
  propMeasures : List MeasDef
  /-- `qHyperCubeDef.qColumnOrder` (empty = absent). -/
  columnOrder : List Nat
  /-- Outcome of `CreateSessionObject` for the fallback straight table. -/
  sessionCreate : Except String Unit
  /-- `qSize.qcy` of the session object's layout (or an error). -/
  sessionTotalRows : Except String Nat
  /-- `GetHyperCubeData` on the session object: `qTop height width ↦ qMatrix`. -/
  sessionFetch : Nat → Nat → Nat → Except String (List (List QCell))
  /-- `GetHyperCubeData` on the object itself: `qTop height width ↦ qMatrix`. -/
  directFetch : Nat → Nat → Nat → Except String (List (List QCell))

/-- Engine side effects, in issue order. -/
inductive EAction where
  | applyBookmark (id : String)
  | selectField (f : String)
  | pivotRead
  | createSession
  | sessionRead (top h : Nat)
  | destroySession
  | directRead (top h : Nat)
  | clearAll
  | disconnect
deriving DecidableEq

/-- The repository's page result (`object_id`, `app_id`, data, pagination). -/
structure ObjResult where
  objectId : String
  appId : Option String
  data : List Row
  pagination : Pagination
deriving DecidableEq

/-- `pivot_data['app_id'] = app_id` before returning a pivot result. -/
def pivotToObj (appId : String) (p : PivotResult) : ObjResult :=
  ⟨p.objectId, some appId, p.data, p.pagination⟩

/-- `'too large' in str(e).lower()` (line 792). -/
def tooLargeErr (e : String) : Bool :=
  strHasSub (pyLower e) "too large"

/-- The direct path's data fetch with the single "too large" retry at half
the row count (lines 784-806), together with the issued request trace. -/
def fetchAttempt (env : ObjEnv) (top rows width : Nat) :
    Except String (List (List QCell)) × List EAction :=
  match env.directFetch top rows width with
  | .ok m => (.ok m, [.directRead top rows])
  | .error e =>
    if tooLargeErr e then
      let half := rows / 2
      if half > 0 then (env.directFetch top half width, [.directRead top rows, .directRead top half])
      else (.error e, [.directRead top rows])
    else (.error e, [.directRead top rows])

/-- Session-path dimension extraction (lines 517-526): keep
`(field, label)` per `qDimensionInfo` entry whose field
(`qGroupFieldDefs[0]` falling back to the label) is non-empty. -/
def sessionDims (dims : List DimInfo) : List (String × String) :=
  dims.foldl
    (fun acc d =>
      let label := d.qFallbackTitle
      let field := d.qGroupFieldDefs.headD label
      if field ≠ "" then acc ++ [(field, label)] else acc)
    []

/-- Session-path measure extraction, first pass (lines 540-553): keep the
full definition when it has a library id or an expression. -/
def sessionMeasPass1 (propMeasures : List MeasDef) : List SMeas × List String :=
  (propMeasures.enum).foldl
    (fun acc p =>
      if p.2.libraryId ≠ "" || p.2.expr ≠ "" then
        (acc.1 ++ [SMeas.full p.2],
         acc.2 ++ [if p.2.label ≠ "" then p.2.label else "Measure_" ++ toString p.1])
      else acc)
    ([], [])

/-- Second pass over the layout's `qMeasureInfo` (lines 556-566): non-empty
fallback titles overwrite labels in place or append `"[label]"` references. -/
def sessionMeasPass2 (start : List SMeas × List String) (measInfo : List MeasInfo) :
    List SMeas × List String :=
  (measInfo.enum).foldl
    (fun acc p =>
      let label := p.2.qFallbackTitle
      if label ≠ "" then
        if acc.2.length ≤ p.1 then
          (acc.1 ++ [SMeas.fieldRef ("[" ++ label ++ "]")], acc.2 ++ [label])
        else (acc.1, acc.2.set p.1 label)
      else acc)
    start

/-- One session-matrix row to an output row (lines 622-642): dimension
columns use `qText`, measure columns the numeric-or-text rule, further
columns are ignored. -/
def sessionRow (dls mls : List String) (row : List QCell) : Row :=
  (row.enum).foldl
    (fun rd p =>
      if p.1 < dls.length then rowSet rd (dls.getD p.1 "") (.txt p.2.qText)
      else if p.1 < dls.length + mls.length then
        rowSet rd (mls.getD (p.1 - dls.length) "") (measCellVal p.2)
      else rd)
    []

/-- Session-path client-side filtering (lines 644-662): exact match on the
dimension whose field or label equals the selection key; unknown keys leave
the rows unchanged. -/
def sessionFilter (sd : List (String × String)) (selections : List (String × List RVal))
    (rows : List Row) : List Row :=
  if selections ≠ [] ∧ rows ≠ [] then
    selections.foldl
      (fun acc sel =>
        let selStrs := sel.2.map RVal.pyStr
        match sd.find? (fun p => p.1 = sel.1 || p.2 = sel.1) with
        | some p => acc.filter (fun r => selStrs.contains (rowGetStr r p.2))
        | none => acc)
      rows
  else rows

/-- `start_row` of the session fetch (line 604). -/
def sessionStartRow (page pageSize : Nat) : Nat := (page - 1) * pageSize

/-- `fetch_rows` of the session fetch (line 605). -/
def sessionFetchRows (stot page pageSize : Nat) : Nat :=
  if sessionStartRow page pageSize < stot
  then min pageSize (stot - sessionStartRow page pageSize) else 0

/-- The session-hypercube fallback (lines 512-715).  `none` in the first
component means the inner `try` failed and control falls through to the
direct path (`use_regular_hypercube = True`). -/
def sessionPath (env : ObjEnv) (objectId appId : String) (page pageSize : Nat)
    (selections : List (String × List RVal)) :
    Option (Except String ObjResult) × List EAction :=
  let sd := sessionDims env.dimInfo
  let sm := sessionMeasPass2 (sessionMeasPass1 env.propMeasures) env.measInfo
  match env.sessionCreate with
  | .error e => (some (.error e), [.createSession])
  | .ok _ =>
    match env.sessionTotalRows with
    | .error _ => (none, [.createSession, .destroySession])
    | .ok stot =>
      let startRow := sessionStartRow page pageSize
      let fetchRows := sessionFetchRows stot page pageSize
      let totalCols := sd.length + sm.1.length
      let fetchRes :=
        if fetchRows > 0 then env.sessionFetch startRow fetchRows totalCols else .ok []
      let fetchActs := if fetchRows > 0 then [EAction.sessionRead startRow fetchRows] else []
      match fetchRes with
      | .error _ => (none, .createSession :: fetchActs ++ [.destroySession])
      | .ok matrix =>
        let sessionData := matrix.map (sessionRow (sd.map (fun p => p.2)) sm.2)
        let filteredData := sessionFilter sd selections sessionData
        let clearActs := if selections ≠ [] then [EAction.clearAll] else []
        let pair :=
          if filteredData ≠ sessionData then
            (filteredData.length,
             if pageSize > 0 then (filteredData.length + pageSize - 1) / pageSize else 1)
          else (stot, if pageSize > 0 then (stot + pageSize - 1) / pageSize else 1)
        (some (.ok ⟨objectId, some appId, filteredData,
                    ⟨page, pageSize, pair.1, pair.2,
                     decide (page < pair.2), decide (page > 1)⟩⟩),
         .createSession :: fetchActs ++ clearActs ++ [.destroySession])

/-- Direct-path dimension fields/labels (lines 722-733): every
`qDimensionInfo` entry contributes, empty or not. -/
def directDims (dims : List DimInfo) : List (String × String) :=
  dims.map (fun d => (d.qGroupFieldDefs.headD d.qFallbackTitle, d.qFallbackTitle))

/-- `measure_expressions` (lines 749-753): non-empty `qDef.qDef` strings. -/
def measureExprs (propMeasures : List MeasDef) : List String :=
  (propMeasures.map (fun m => m.expr)).filter (fun e => e ≠ "")

/-- The `hypercube_to_cell` reverse map of the visual column order
(lines 817-819): a Python dict built by `map[hc_col] = cell_index` over
`enumerate(column_order)`, so a later assignment wins. -/
def orderLookup (columnOrder : List Nat) (hc : Nat) : Option Nat :=
  ((columnOrder.enum).filter (fun p => p.2 = hc)).getLast?.map (fun p => p.1)

/-- One direct-path matrix row to an output row (lines 821-848). -/
def directRow (dimLabels measureLabels : List String) (columnOrder : List Nat)
    (row : List QCell) : Row :=
  let allLabels := dimLabels ++ measureLabels
  (List.range allLabels.length).foldl
    (fun rd hc =>
      match orderLookup columnOrder hc with
      | none => rd
      | some ci =>
        match row[ci]? with
        | none => rd
        | some cell =>
          let value := if hc < dimLabels.length then RVal.txt cell.qText else directMeasVal cell
          rowSet rd (allLabels.getD hc "") value)
    []

/-- Direct-path client-side filtering (lines 850-864): map the filter's
field name through `dict(zip(dim_fields, dim_labels))` (falling back to the
name itself) and compare stripped strings. -/
def directFilters (dd : List (String × String)) (filters : List (String × RVal))
    (rows : List Row) : List Row :=
  filters.foldl
    (fun acc f =>
      let lbl :=
        match ((dd.filter (fun p => p.1 = f.1)).getLast?) with
        | some p => p.2
        | none => f.1
      acc.filter (fun r => pyStrip (rowGetStr r lbl) = pyStrip f.2.pyStr))
    rows

/-- `num_columns` of the direct path (line 770). -/
def directNumColumns (env : ObjEnv) : Nat :=
  (directDims env.dimInfo).length + (measureExprs env.propMeasures).length

/-- `column_order` with its natural-order fallback (lines 756-759). -/
def directColumnOrder (env : ObjEnv) : List Nat :=
  if env.columnOrder.isEmpty
  then List.range ((directDims env.dimInfo).length + (measureExprs env.propMeasures).length)
  else env.columnOrder

/-- `max_safe_rows` (line 771): `min(500, 10000 // max(num_columns, 1))`. -/
def directMaxSafeRows (env : ObjEnv) : Nat :=
  min 500 (10000 / max (directNumColumns env) 1)

/-- `start_row` of the direct fetch (line 775). -/
def directStartRow (page pageSize : Nat) (filters : List (String × RVal)) : Nat :=
  if filters ≠ [] then 0 else (page - 1) * pageSize

/-- `fetch_rows` of the direct fetch (lines 773-778). -/
def directFetchRows (env : ObjEnv) (page pageSize : Nat)
    (filters : List (String × RVal)) : Nat :=
  let fr0 := if filters ≠ [] then 1000 else pageSize
  let fr1 := min fr0 (directMaxSafeRows env)
  let s := directStartRow page pageSize filters
  if s < env.qcy then min fr1 (env.qcy - s) else 0

/-- The direct (non-collapsed) hypercube path (lines 717-896). -/
def directPath (env : ObjEnv) (objectId appId : String) (page pageSize : Nat)
    (filters : List (String × RVal)) : Except String ObjResult × List EAction :=
  let dd := directDims env.dimInfo
  let dimLabels := dd.map (fun p => p.2)
  let measureLabels := env.measInfo.map (fun m => m.qFallbackTitle)
  let columnOrder := directColumnOrder env
  let numColumns := directNumColumns env
  let startRow := directStartRow page pageSize filters
  let fetchRows := directFetchRows env page pageSize filters
  let fetched :=
    if fetchRows > 0 then fetchAttempt env startRow fetchRows numColumns
    else (.ok [], [])
  match fetched with
  | (.error e, acts) => (.error e, acts)
  | (.ok matrix, acts) =>
    let allRows := matrix.map (directRow dimLabels measureLabels columnOrder)
    let filteredRows := directFilters dd filters allRows
    let paginationTotal := if filters ≠ [] then filteredRows.length else env.qcy
    let actualPageSize := if filters ≠ [] then pageSize else filteredRows.length
    if actualPageSize = 0 ∧ 0 < paginationTotal then
      (.error "ZeroDivisionError: integer division or modulo by zero", acts)
    else
      let totalPages :=
        if paginationTotal > 0 then (paginationTotal + actualPageSize - 1) / actualPageSize
        else 1
      let dataRows :=
        if filters ≠ [] then (filteredRows.drop ((page - 1) * pageSize)).take pageSize
        else filteredRows
      (.ok ⟨objectId, some appId, dataRows,
            ⟨page, actualPageSize, paginationTotal, totalPages,
             decide (page < totalPages), decide (page > 1)⟩⟩,
       acts)

/-- `is_collapsed_pivot` (line 440). -/
def isCollapsed (env : ObjEnv) : Prop :=
  env.qcx < env.dimInfo.length ∧ 0 < env.dimInfo.length

/-- `is_empty_pivot` (line 441). -/
def isEmptyPivot (env : ObjEnv) : Prop :=
  env.qcy = 0 ∧ 0 < env.dimInfo.length

instance (env : ObjEnv) : Decidable (isCollapsed env) := by
  unfold isCollapsed; infer_instance

instance (env : ObjEnv) : Decidable (isEmptyPivot env) := by
  unfold isEmptyPivot; infer_instance

/-- Count of expected dimension labels covered by the first returned row's
keys (lines 483-486). -/
def dimCoverage (dimInfo : List DimInfo) (keys : List String) : Nat :=
  (dimInfo.filter (fun d => keys.contains d.qFallbackTitle)).length

/-- Session fallback, falling through to the direct path if its inner
`try` fails (lines 512-721). -/
def fallbackChain (env : ObjEnv) (objectId appId : String) (page pageSize : Nat)
    (filters : List (String × RVal)) (selections : List (String × List RVal)) :
    Except String ObjResult × List EAction :=
  match sessionPath env objectId appId page pageSize selections with
  | (some r, acts) => (r, acts)
  | (none, acts) =>
    let p := directPath env objectId appId page pageSize filters
    (p.1, acts ++ p.2)

/-- `EAction`s of applying the requested selections (lines 406-416 and
452-461; failures are logged and swallowed, so the trace just records the
attempts). -/
def selectionActs (selections : List (String × List RVal)) : List EAction :=
  selections.map (fun s => .selectField s.1)

/-- Engine actions taken before the object is read: optional bookmark
application and the selection attempts (lines 401-416). -/
def preTraceActs (bookmarkId : Option String)
    (selections : List (String × List RVal)) : List EAction :=
  (match bookmarkId with
   | some b => [EAction.applyBookmark b]
   | none => []) ++ selectionActs selections

/-- Engine actions of the `finally` block (lines 898-908). -/
def finalActs (selections : List (String × List RVal)) : List EAction :=
  (if selections ≠ [] then [EAction.clearAll] else []) ++ [EAction.disconnect]

/-- The body of `get_object_data` before the `finally` block. -/
def getObjectDataCore (env : ObjEnv) (objectId appId : String) (page pageSize : Nat)
    (filters : List (String × RVal)) (selections : List (String × List RVal))
    (bookmarkId : Option String) : Except String ObjResult × List EAction :=
  let preActs := preTraceActs bookmarkId selections
  if isCollapsed env ∨ isEmptyPivot env then
    let acts1 := preActs ++ selectionActs selections ++ [EAction.pivotRead]
    match getPivotData env.pivot objectId page pageSize [] none with
    | .error _ =>
      let p := fallbackChain env objectId appId page pageSize filters selections
      (p.1, acts1 ++ p.2)
    | .ok pd =>
      match pd.data.head? with
      | some firstRow =>
        if env.dimInfo.length ≤ dimCoverage env.dimInfo (rowKeys firstRow) then
          (.ok (pivotToObj appId pd),
           acts1 ++ (if selections ≠ [] then [EAction.clearAll] else []))
        else
          let p := fallbackChain env objectId appId page pageSize filters selections
          (p.1, acts1 ++ p.2)
      | none =>
        (.ok (pivotToObj appId pd),
         acts1 ++ (if selections ≠ [] then [EAction.clearAll] else []))
  else
    let p := directPath env objectId appId page pageSize filters
    (p.1, preActs ++ p.2)

/-- `get_object_data`, including the `finally` block (lines 898-908): clear
selections when any were requested, then disconnect, on success and failure
alike. -/
def getObjectData (env : ObjEnv) (objectId appId : String) (page pageSize : Nat)
    (filters : List (String × RVal)) (selections : List (String × List RVal))
    (bookmarkId : Option String) : Except String ObjResult × List EAction :=
  let p := getObjectDataCore env objectId appId page pageSize filters selections bookmarkId
  (p.1, p.2 ++ finalActs selections)

/-! ## Transport session — `send_request` (`qlik_engine.py` lines 123-164)

The WebSocket is modelled by a connection flag and the pending incoming
messages in arrival order.  `ws.recv()` returns the serialized text of the
next message; the source's terminal test `"result" in data or "error" in
data` is a **substring** test on that text, and only the terminal message is
parsed with `json.loads`.  Messages are represented as JSON values together
with a serializer matching `json.dumps` defaults (strings are assumed to
need no escaping); `json.loads` of a serialized value yields the value back,
so parsing is the identity here.  Object keys are assumed unique, matching
`json.loads` output. -/

/-- A JSON value (the fragment used by the protocol). -/
inductive J where
  | str (s : String)
  | num (n : Int)
  | arr (xs : List J)
  | obj (fs : List (String × J))

mutual

/-- `json.dumps` with default separators. -/
def dumps : J → String
  | .str s => "\"" ++ s ++ "\""
  | .num n => toString n
  | .arr xs => "[" ++ dumpsArr xs ++ "]"
  | .obj fs => "\x7b" ++ dumpsObj fs ++ "\x7d"

/-- Serialize array elements, comma-separated. -/
def dumpsArr : List J → String
  | [] => ""
  | [x] => dumps x
  | x :: y :: xs => dumps x ++ ", " ++ dumpsArr (y :: xs)

/-- Serialize object fields, comma-separated. -/
def dumpsObj : List (String × J) → String
  | [] => ""
  | [f] => "\"" ++ f.1 ++ "\": " ++ dumps f.2
  | f :: g :: fs => "\"" ++ f.1 ++ "\": " ++ dumps f.2 ++ ", " ++ dumpsObj (g :: fs)

end

/-- The fields of a JSON object (none for other values). -/
def J.objFields : J → Option (List (String × J))
  | .obj fs => some fs
  | _ => none

/-- Python `k in d` on a parsed JSON object. -/
def jHasKey (j : J) (k : String) : Bool :=
  match j.objFields with
  | some fs => fs.any (fun f => f.1 = k)
  | none => false

/-- `d.get(k)` on a parsed JSON object. -/
def jGet (j : J) (k : String) : Option J :=
  match j.objFields with
  | some fs => (fs.find? (fun f => f.1 = k)).map (fun f => f.2)
  | none => none

/-- The session state of the transport: connection flag, last issued
request id (`request_id`, starts at 0, `_get_next_request_id`
pre-increments), and the pending incoming messages. -/
structure WsSession where
  connected : Bool
  requestId : Nat
  incoming : List J

/-- Errors surfaced by `send_request`. -/
inductive SendErr where
  | notConnected
  | engineError (payload : J)
  | badMessage
  | noMessage
deriving Inhabited

/-- Outcome of one `send_request` call: the result, the envelopes written to
the socket, and the post-call session state. -/
structure SendOutcome where
  result : Except SendErr J
  sent : List J
  state : WsSession

/-- The terminal test of the receive loop (line 156):
`"result" in data or "error" in data` over the serialized message text. -/
def terminalText (m : J) : Bool :=
  strHasSub (dumps m) "result" || strHasSub (dumps m) "error"

/-- Handling of the terminal message (lines 159-164): a message with an
`error` key raises an engine error carrying the payload, otherwise
`response.get("result", {})` is returned.  A non-object terminal message
makes the subsequent attribute accesses raise (`badMessage`). -/
def terminalResult (m : J) : Except SendErr J :=
  match m.objFields with
  | some _ =>
    if jHasKey m "error" then .error (.engineError ((jGet m "error").getD (J.obj [])))
    else .ok ((jGet m "result").getD (J.obj []))
  | none => .error .badMessage

/-- The receive loop (lines 154-157): discard messages until `terminalText`;
an exhausted stream would block forever in Python (`noMessage`). -/
def recvLoop : List J → Except SendErr J × List J
  | [] => (.error .noMessage, [])
  | m :: rest =>
    if terminalText m then (terminalResult m, rest) else recvLoop rest

/-- The request envelope (lines 144-150). -/
def envelope (rid : Nat) (handle : Int) (method : String) (params : J) : J :=
  J.obj [("jsonrpc", .str "2.0"), ("id", .num rid), ("handle", .num handle),
         ("method", .str method), ("params", params)]

/-- `send_request` (lines 123-164).  Disconnected sessions fail immediately
with a connection error, before any socket I/O. -/
def sendRequest (st : WsSession) (method : String) (params : J) (handle : Int) :
    SendOutcome :=
  if st.connected then
    let rid := st.requestId + 1
    let env := envelope rid handle method params
    let p := recvLoop st.incoming
    { result := p.1, sent := [env],
      state := { connected := st.connected, requestId := rid, incoming := p.2 } }
  else
    { result := .error .notConnected, sent := [], state := st }

/-- A concrete direct-path environment: a one-dimension straight table with
150 total rows whose engine returns exactly the requested window (here the
last page holds only 50 rows). -/
def directEnvA : ObjEnv where
  pivot := { dims := [], measures := [], totalRows := 0, fetch := fun _ _ _ => [] }
  qcy := 150
  qcx := 1
  dimInfo := [{ qFallbackTitle := "D", qGroupFieldDefs := ["F"] }]
  measInfo := []
  propMeasures := []
  columnOrder := []
  sessionCreate := .ok ()
  sessionTotalRows := .ok 0
  sessionFetch := fun _ _ _ => .ok []
  directFetch := fun _ h _ => .ok (List.replicate h [{ qText := "x" }])

/-- A concrete collapsed-pivot environment: two declared dimensions but a
single visible column; the pivot read returns one row carrying only the
first dimension label, while the fallback session table returns full-width
rows. -/
def c2Env : ObjEnv where
  pivot := { dims := [(some "A", some "fA")], measures := [],
             totalRows := 1,
             fetch := fun _ _ _ => [⟨[QLeft.node "v" 7 []], [QDataRow.cells []]⟩] }
  qcy := 1
  qcx := 1
  dimInfo := [{ qFallbackTitle := "A", qGroupFieldDefs := ["fA"] },
              { qFallbackTitle := "B", qGroupFieldDefs := ["fB"] }]
  measInfo := []
  propMeasures := []
  columnOrder := []
  sessionCreate := .ok ()
  sessionTotalRows := .ok 2
  sessionFetch := fun _ h _ => .ok (List.replicate h [{ qText := "u" }, { qText := "w" }])
  directFetch := fun _ _ _ => .error "unused"

/-! ## Well-formedness of engine responses

The theorems about flattening and row counts assume the engine response is
well-formed (real `GetHyperCubePivotData` responses are: every tree entry is
a dict, leaves all sit at the full dimension depth, and the number of data
rows encoded never exceeds the requested `qHeight`). -/

/-- A `qLeft` entry all of whose nested entries are dicts — the shape on
which the Python recursion does not raise. -/
inductive DictTree : QLeft → Prop where
  | node (txt : String) (e : Int) (subs : List QLeft) :
      (∀ s ∈ subs, DictTree s) → DictTree (QLeft.node txt e subs)

/-- A dict tree whose every leaf sits exactly `d` levels below this entry
(`d ≥ 1`; a leaf itself has depth 1). -/
inductive UniformTree : QLeft → Nat → Prop where
  | leaf (txt : String) (e : Int) : UniformTree (QLeft.node txt e []) 1
  | branch (txt : String) (e : Int) (k : QLeft) (ks : List QLeft) (d : Nat) :
      (∀ s ∈ k :: ks, UniformTree s d) →
      UniformTree (QLeft.node txt e (k :: ks)) (d + 1)

/-- A well-formed `qData` entry: a cell list of the given width. -/
def goodDataRow (m : Nat) (d : QDataRow) : Prop :=
  ∃ cs, d = QDataRow.cells cs ∧ cs.length = m

/-- The number of data rows a page encodes: leaves in tree format, zipped
pairs in flat format. -/
def pageRowCount (pg : PivotPage) : Nat :=
  if usesTreeFormat pg.qLeft then leafCountList pg.qLeft
  else min pg.qLeft.length pg.qData.length

/-- An honest response page for a request of height `hgt`: dict-shaped tree
entries and no more encoded rows than requested. -/
def pageHonest (pg : PivotPage) (hgt : Nat) : Prop :=
  (usesTreeFormat pg.qLeft = true → ∀ t ∈ pg.qLeft, DictTree t)
  ∧ pageRowCount pg ≤ hgt

/-- An honest pivot fetch oracle: every returned first page is honest for
the requested height. -/
def pivotFetchHonest (env : PivotEnv) : Prop :=
  ∀ top hgt w pg, (env.fetch top hgt w).head? = some pg → pageHonest pg hgt

/-- An honest plain-matrix oracle: never more rows than requested. -/
def matrixHonest (fetch : Nat → Nat → Nat → Except String (List (List QCell))) : Prop :=
  ∀ top hgt w m, fetch top hgt w = .ok m → m.length ≤ hgt

/-! ## Claim-side (specification) definitions

These definitions follow the wording of the specification, not the source;
the theorems compare the source-derived definitions against them. -/

/-- Spec: `total_pages == max(1, ceil(total_rows / page_size))`. -/
def specTotalPages (totalRows pageSize : Nat) : Nat :=
  max 1 ((totalRows + pageSize - 1) / pageSize)

/-- Spec: carried-forward semantics for one dimension column — each cell
`(text, elemNo)` emits its text when it supplies a non-placeholder element
id or non-empty text, and otherwise repeats the previously emitted value. -/
def carrySpec (prev : String) : List (String × Int) → List String
  | [] => []
  | c :: cs =>
    let cur := if c.2 ≠ -2 || c.1 ≠ "" then c.1 else prev
    cur :: carrySpec cur cs

/-- Spec: the first value of a row (in field order) that parses as a
recognized date, as its year-month token. -/
def firstDateYm (r : Row) : Option String :=
  ((rowValues r).map RVal.pyStr).findSome? extractYm

/-- Spec pattern `M/D/YYYY` / `DD/MM/YYYY` (both separators are slashes):
the whole string. -/
def specSlashDate (cs : List Char) : Bool :=
  (matchUS cs).isSome

/-- Spec pattern `DD.MM.YYYY` (both separators are dots): the whole string. -/
def specDotDate (cs : List Char) : Bool :=
  match cs.span Char.isDigit with
  | (g1, '.' :: r2) =>
    if g1.length = 0 || g1.length > 2 then false else
    match r2.span Char.isDigit with
    | (g2, '.' :: r4) =>
      if g2.length = 0 || g2.length > 2 then false else
      match r4.span Char.isDigit with
      | (g3, r5) => g3.length = 4 && r5.isEmpty
    | _ => false
  | _ => false

/-- Spec pattern `YYYY-MM-DD`: the whole string. -/
def specIsoDate (cs : List Char) : Bool :=
  match cs with
  | [a, b, c, d, '-', e, f, '-', g, h] =>
    a.isDigit && b.isDigit && c.isDigit && d.isDigit &&
    e.isDigit && f.isDigit && g.isDigit && h.isDigit
  | _ => false

/-- Spec pattern `YYYY.MM[.DD]`: the whole string. -/
def specYmDate (cs : List Char) : Bool :=
  match cs with
  | [a, b, c, d, '.', e, f] =>
    a.isDigit && b.isDigit && c.isDigit && d.isDigit && e.isDigit && f.isDigit
  | [a, b, c, d, '.', e, f, '.', g, h] =>
    a.isDigit && b.isDigit && c.isDigit && d.isDigit && e.isDigit && f.isDigit &&
    g.isDigit && h.isDigit
  | _ => false

/-- A string matching one of the spec's five listed date formats. -/
def specAnyDate (s : String) : Bool :=
  specSlashDate s.data || specDotDate s.data || specIsoDate s.data || specYmDate s.data

/-- Claim C2's fallback condition: the pivot read of the collapsed path
returned an error, or returned rows whose (first row's) key set covers
fewer than the declared number of dimension labels. -/
def pivotIncomplete (env : ObjEnv) (oid : String) (page ps : Nat) : Prop :=
  (∃ e, getPivotData env.pivot oid page ps [] none = .error e)
  ∨ (∃ pd fr, getPivotData env.pivot oid page ps [] none = .ok pd
      ∧ pd.data.head? = some fr
      ∧ dimCoverage env.dimInfo (rowKeys fr) < env.dimInfo.length)

/-- A concrete oracle for the C5 witness: the fetch at height 10 reports a
"too large" error, the fetch at height 5 succeeds. -/
def retryEnv : ObjEnv where
  pivot := { dims := [], measures := [], totalRows := 0, fetch := fun _ _ _ => [] }
  qcy := 0
  qcx := 0
  dimInfo := []
  measInfo := []
  propMeasures := []
  columnOrder := []
  sessionCreate := .ok ()
  sessionTotalRows := .ok 0
  sessionFetch := fun _ _ _ => .ok []
  directFetch := fun _ h _ => if h = 5 then .ok [] else .error "Result too large"

/-- A session whose first pending message is a notification that contains
the *substring* `"result"` in its serialized text but has neither a
`result` nor an `error` key, followed by a genuine result message. -/
def cexSession : WsSession :=
  ⟨true, 0, [J.obj [("method", J.str "notify_result")], J.obj [("result", J.str "real")]]⟩

/-! # Theorems -/

/-! ## C7 — `_extract_ym` format support (corrected) -/

/-- C7 counterexample: `_extract_ym("01/02.2026")` returns `"2026.02"`
because the source's day-month-year regex `^(\d{1,2})[./](\d{1,2})[./](\d{4})$`
matches its two separators independently, although `"01/02.2026"` matches
none of the five formats listed by the claim — so "`_extract_ym` returns
`None` for every string matching none of these patterns" is false. -/
theorem extract_ym_mixed_sep_cex :
    extractYm "01/02.2026" = some "2026.02" ∧ specAnyDate "01/02.2026" = false := by
  constructor
  · decide
  · decide

/-- C7 amended: `_extract_ym` tries M/D/YYYY first, then the day-month-year
pattern (which accepts `.` and `/` independently, so mixed separators also
match), then `YYYY-MM-DD` and `YYYY.MM` as *prefixes* of the stripped input;
the claim's concrete examples all hold; and `None` is returned exactly for
strings whose stripped form matches none of the four source patterns. -/
theorem extract_ym_amended :
    extractYm "2/1/2026" = some "2026.02"
    ∧ extractYm "01.02.2026" = some "2026.02"
    ∧ extractYm "2026-02-01" = some "2026.02"
    ∧ extractYm "2026.02.01" = some "2026.02"
    ∧ extractYm "not-a-date" = none
    ∧ (∀ s : String,
        matchUS (pyStripChars s.data) = none →
        matchRU (pyStripChars s.data) = none →
        matchISO (pyStripChars s.data) = none →
        matchYM (pyStripChars s.data) = none →
        extractYm s = none) := by
  refine ⟨by decide, by decide, by decide, by decide, by decide, ?_⟩
  intro s h1 h2 h3 h4
  unfold extractYm
  simp only [h1, h2, h3, h4]

/-- C7 witness: the final clause of `extract_ym_amended` applied at
`"hello"`. -/
theorem extract_ym_amended_witness : extractYm "hello" = none :=
  extract_ym_amended.2.2.2.2.2 "hello" (by decide) (by decide) (by decide) (by decide)

/-! ## C5 — the "too large" retry (confirmed) -/

/-- C5: in the direct-hypercube path's data fetch, a failure whose error
text contains `"too large"` triggers exactly one automatic retry with the
requested row count halved; the halved request's outcome (success or
failure) is final; when the halved count reaches 0 the original error
propagates; any other failure propagates immediately; and at most two
requests are ever issued, the first at the original count. -/
theorem too_large_retry (env : ObjEnv) (top rows width : Nat) :
    (∀ m, env.directFetch top rows width = .ok m →
      fetchAttempt env top rows width = (.ok m, [.directRead top rows]))
    ∧ (∀ e, env.directFetch top rows width = .error e → tooLargeErr e = false →
        fetchAttempt env top rows width = (.error e, [.directRead top rows]))
    ∧ (∀ e, env.directFetch top rows width = .error e → tooLargeErr e = true →
        rows / 2 = 0 →
        fetchAttempt env top rows width = (.error e, [.directRead top rows]))
    ∧ (∀ e, env.directFetch top rows width = .error e → tooLargeErr e = true →
        0 < rows / 2 →
        fetchAttempt env top rows width
          = (env.directFetch top (rows / 2) width,
             [.directRead top rows, .directRead top (rows / 2)]))
    ∧ (fetchAttempt env top rows width).2.length ≤ 2
    ∧ (fetchAttempt env top rows width).2.head? = some (.directRead top rows) := by
  refine ⟨?_, ?_, ?_, ?_, ?_, ?_⟩
  · intro m hm; simp [fetchAttempt, hm]
  · intro e he hl; simp [fetchAttempt, he, hl]
  · intro e he hl hz; simp [fetchAttempt, he, hl, hz]
  · intro e he hl hz; simp [fetchAttempt, he, hl, Nat.pos_iff_ne_zero.mp hz]
  · unfold fetchAttempt
    rcases h : env.directFetch top rows width with e | m
    · by_cases hl : tooLargeErr e = true <;> by_cases hz : rows / 2 = 0 <;>
        simp [hl, hz, Nat.pos_of_ne_zero]
    · simp
  · unfold fetchAttempt
    rcases h : env.directFetch top rows width with e | m
    · by_cases hl : tooLargeErr e = true <;> by_cases hz : rows / 2 = 0 <;>
        simp [hl, hz, Nat.pos_of_ne_zero]
    · simp

/-- C5 witness: `too_large_retry` at the concrete oracle — one retry at
half the count, which succeeds. -/
theorem too_large_retry_witness :
    fetchAttempt retryEnv 0 10 3 = (.ok [], [.directRead 0 10, .directRead 0 5]) := by
  have h := (too_large_retry retryEnv 0 10 3).2.2.2.1 "Result too large" rfl rfl
    (by decide)
  simpa using h

/-! ## C6 — flat/sparse carried-forward semantics (confirmed) -/

/-- Reading the carried map right after an update. -/
theorem carriedGet_upd (m : Carried) (i : Nat) (t : String) (e : Int) :
    carriedGet (carriedUpd m i t e) i
      = if e ≠ -2 || t ≠ "" then t else carriedGet m i := by
  unfold carriedUpd
  rcases h : (decide (e ≠ -2) || decide (t ≠ "")) with _ | _
  · simp [h]
  · simp [h, carriedGet, carriedSet]

/-- The flat branch on a single-dimension stream of dict cells emits exactly
the carried-forward value sequence. -/
theorem flatRowsGo_single_dim (l0 : String) (cells : List (String × Int)) (carried : Carried) :
    flatRowsGo [l0] [] (cells.map (fun c => (QLeft.node c.1 c.2 [], QDataRow.cells []))) carried
      = (carrySpec (carriedGet carried 0) cells).map (fun v => [(l0, RVal.txt v)]) := by
  induction cells generalizing carried with
  | nil => rfl
  | cons c cs ih =>
    simp only [List.map_cons, flatRowsGo, flatDimPart, carrySpec]
    rw [ih (carriedUpd carried 0 c.1 c.2), carriedGet_upd]
    simp [rowSet, addMeasures]

/-- C6: in the flat/sparse branch of `get_pivot_data`, a dimension cell with
a placeholder element id (`qElemNo` absent, i.e. `-2`) and empty text reuses
the previously emitted value for its column, and the carried value is
overwritten exactly when a cell supplies a non-placeholder element id or
non-empty text (`carrySpec`); in particular the cell sequence
`[{text:"A"}, {text:""}, {text:"B"}]` emits `["A","A","B"]`. -/
theorem flat_carried_forward :
    (∀ (l0 : String) (cells : List (String × Int)),
      flatRows [l0] [] (cells.map (fun c => QLeft.node c.1 c.2 []))
          (cells.map (fun _ => QDataRow.cells []))
        = (carrySpec "" cells).map (fun v => [(l0, RVal.txt v)]))
    ∧ flatRows ["Dim"] []
        [QLeft.node "A" (-2) [], QLeft.node "" (-2) [], QLeft.node "B" (-2) []]
        [QDataRow.cells [], QDataRow.cells [], QDataRow.cells []]
      = [[("Dim", RVal.txt "A")], [("Dim", RVal.txt "A")], [("Dim", RVal.txt "B")]] := by
  constructor
  · intro l0 cells
    unfold flatRows
    rw [List.zip_map']
    have h := flatRowsGo_single_dim l0 cells []
    simpa [carriedGet] using h
  · decide

/-! ## C8 — date-extraction fallback filter (confirmed) -/

/-- The source's per-row scan (`matched` flag with `break`) agrees with
"the first value that parses as a date decides the row". -/
theorem rowScanCode_eq_findSome (selStrs : List String) (vs : List RVal) :
    rowScanCode selStrs vs
      = match (vs.map RVal.pyStr).findSome? extractYm with
        | some ym => selStrs.contains ym
        | none => false := by
  induction vs with
  | nil => rfl
  | cons v rest ih =>
    simp only [rowScanCode, List.map_cons, List.findSome?_cons]
    rcases h : extractYm v.pyStr with _ | ym
    · simpa [h] using ih
    · simp [h]

/-- C8: when the requested selection key matches neither a dimension field
name nor a dimension label of the pivot, `get_pivot_data`'s client-side
filter keeps exactly the rows whose *first* value (in field order) parsing
as a recognized date has its year-month in the requested value set; values
that are not recognized dates are skipped, and a row containing no
recognized date is excluded. -/
theorem date_heuristic_filter (dimFields dimLabels : List String)
    (k : String) (vals : List RVal) (rows : List Row)
    (hk : ∀ p ∈ dimFields.zip dimLabels, p.1 ≠ k ∧ p.2 ≠ k) :
    clientFilter dimFields dimLabels [(k, vals)] rows
        = rows.filter (fun r =>
            match firstDateYm r with
            | some ym => (vals.map RVal.pyStr).contains ym
            | none => false)
    ∧ (∀ r ∈ rows, firstDateYm r = none →
        r ∉ clientFilter dimFields dimLabels [(k, vals)] rows) := by
  have hfind : (dimFields.zip dimLabels).find? (fun p => p.1 = k || p.2 = k) = none := by
    rw [List.find?_eq_none]
    intro p hp
    have := hk p hp
    simp [this.1, this.2]
  have hmain : clientFilter dimFields dimLabels [(k, vals)] rows
      = rows.filter (fun r =>
          match firstDateYm r with
          | some ym => (vals.map RVal.pyStr).contains ym
          | none => false) := by
    unfold clientFilter clientFilterStep
    simp only [List.foldl_cons, List.foldl_nil, hfind]
    apply List.filter_congr
    intro r _
    rw [rowScanCode_eq_findSome]
    rfl
  refine ⟨hmain, ?_⟩
  intro r _ hnone hmem
  rw [hmain] at hmem
  have := List.of_mem_filter hmem
  rw [hnone] at this
  exact Bool.noConfusion this

/-- C8 witness: `date_heuristic_filter` on a concrete unmatched key — only
the row whose first recognized date maps to `2024.01` survives. -/
theorem date_heuristic_filter_witness :
    clientFilter ["F"] ["L"] [("YearMonth", [RVal.txt "2024.01"])]
        [[("L", RVal.txt "15.01.2024")], [("L", RVal.txt "15.02.2024")],
         [("L", RVal.txt "hello")]]
      = [[("L", RVal.txt "15.01.2024")]] := by
  rw [(date_heuristic_filter ["F"] ["L"] "YearMonth" [RVal.txt "2024.01"]
      [[("L", RVal.txt "15.01.2024")], [("L", RVal.txt "15.02.2024")],
       [("L", RVal.txt "hello")]] (by decide)).1]
  decide

/-! ## Row-dictionary lemmas -/

theorem rowKeys_append (r s : Row) : rowKeys (r ++ s) = rowKeys r ++ rowKeys s := by
  simp [rowKeys]

theorem any_key_eq_false {r : Row} {k : String} (h : k ∉ rowKeys r) :
    r.any (fun p => p.1 = k) = false := by
  rw [List.any_eq_false]
  intro p hp
  simp only [decide_eq_true_eq]
  intro he
  exact h (he ▸ List.mem_map_of_mem (fun q => q.1) hp)

theorem rowSet_of_not_mem {r : Row} {k : String} (h : k ∉ rowKeys r) (v : RVal) :
    rowSet r k v = r ++ [(k, v)] := by
  simp [rowSet, any_key_eq_false h]

theorem rowKeys_rowSet_of_not_mem {r : Row} {k : String} (h : k ∉ rowKeys r) (v : RVal) :
    rowKeys (rowSet r k v) = rowKeys r ++ [k] := by
  rw [rowSet_of_not_mem h, rowKeys_append]
  rfl

theorem mem_rowKeys_rowSet {r : Row} {a : String} (k : String) (v : RVal)
    (h : a ∈ rowKeys r) : a ∈ rowKeys (rowSet r k v) := by
  unfold rowSet
  split
  · obtain ⟨p, hp, he⟩ := List.mem_map.mp h
    apply List.mem_map.mpr
    refine ⟨if p.1 = k then (k, v) else p, List.mem_map_of_mem _ hp, ?_⟩
    by_cases hk : p.1 = k
    · rw [if_pos hk]
      exact hk ▸ he
    · rw [if_neg hk]
      exact he
  · rw [rowKeys_append]
    exact List.mem_append_left _ h

theorem self_mem_rowKeys_rowSet (r : Row) (k : String) (v : RVal) :
    k ∈ rowKeys (rowSet r k v) := by
  unfold rowSet
  split
  · next hany =>
    obtain ⟨p, hp, he⟩ := List.any_eq_true.mp hany
    have he' : p.1 = k := of_decide_eq_true he
    apply List.mem_map.mpr
    exact ⟨(k, v), List.mem_map.mpr ⟨p, hp, by simp [he']⟩, rfl⟩
  · rw [rowKeys_append]
    exact List.mem_append_right _ (by simp [rowKeys])

/-- Folding label-indexed `rowSet`s (through any threaded state) over fresh,
duplicate-free labels appends exactly those labels to the key list. -/
theorem keys_stateFold {α σ : Type} (labs : List String) (lab : Nat → String)
    (proj : σ → Row) (step : σ → Nat × α → σ) (P : α → Prop)
    (hnd : labs.Nodup)
    (hlab : ∀ i, i < labs.length → lab i = labs.getD i "")
    (hstep : ∀ (s : σ) (i : Nat) (a : α), P a →
      ∃ v, proj (step s (i, a)) = rowSet (proj s) (lab i) v) :
    ∀ (xs : List α) (j : Nat) (s : σ), (∀ a ∈ xs, P a) → j + xs.length = labs.length →
      (∀ l ∈ labs.drop j, l ∉ rowKeys (proj s)) →
      rowKeys (proj ((xs.enumFrom j).foldl step s)) = rowKeys (proj s) ++ labs.drop j := by
  intro xs
  induction xs with
  | nil =>
    intro j s _ hlen _
    have hj : j = labs.length := by simpa using hlen
    simp [hj, List.drop_length]
  | cons x xs ih =>
    intro j s hP hlen hfresh
    have hj : j < labs.length := by simp at hlen; omega
    obtain ⟨v, hv⟩ := hstep s j x (hP x (by simp))
    have hdrop : labs.drop j = labs.getD j "" :: labs.drop (j + 1) := by
      rw [List.getD_eq_getElem _ _ hj]
      exact List.drop_eq_getElem_cons hj
    have hfreshj : labs.getD j "" ∉ rowKeys (proj s) := by
      apply hfresh
      rw [hdrop]
      exact List.mem_cons_self _ _
    have hnotdrop : labs.getD j "" ∉ labs.drop (j + 1) := by
      have hndDrop : (labs.drop j).Nodup := List.Nodup.sublist (List.drop_sublist j labs) hnd
      rw [hdrop] at hndDrop
      exact (List.nodup_cons.mp hndDrop).1
    have hkeys : rowKeys (proj (step s (j, x))) = rowKeys (proj s) ++ [labs.getD j ""] := by
      rw [hv, hlab j hj, rowKeys_rowSet_of_not_mem hfreshj]
    have hfresh2 : ∀ l ∈ labs.drop (j + 1), l ∉ rowKeys (proj (step s (j, x))) := by
      intro l hl
      rw [hkeys]
      intro hmem
      rcases List.mem_append.mp hmem with h1 | h2
      · exact hfresh l (by rw [hdrop]; exact List.mem_cons_of_mem _ hl) h1
      · have : l = labs.getD j "" := by simpa using h2
        exact hnotdrop (this ▸ hl)
    rw [List.enumFrom_cons]
    simp only [List.foldl_cons]
    rw [ih (j + 1) (step s (j, x)) (fun a ha => hP a (by simp [ha]))
      (by simp at hlen ⊢; omega) hfresh2]
    rw [hkeys, hdrop]
    simp

/-- The key list of a leaf row's dimension part is exactly `dim_labels`. -/
theorem leafDimRow_keys (dimLabels : List String) (newPath : List String)
    (hnd : dimLabels.Nodup) (hlen : newPath.length = dimLabels.length) :
    rowKeys (leafDimRow dimLabels newPath) = dimLabels := by
  have h := keys_stateFold dimLabels (dimLabelAt dimLabels) (fun r => r)
    (fun r p => rowSet r (dimLabelAt dimLabels p.1) (.txt p.2)) (fun _ => True) hnd
    (fun i hi => by
      show dimLabels.getD i ("dim" ++ toString i) = dimLabels.getD i ""
      rw [List.getD_eq_getElem _ _ hi, List.getD_eq_getElem _ _ hi])
    (fun s i a _ => ⟨.txt a, rfl⟩)
    newPath 0 [] (fun _ _ => trivial) (by simpa using hlen) (by simp [rowKeys])
  simpa [leafDimRow, List.enum] using h

/-- Adding a full-width measure row appends exactly `meas_labels` to the
key list. -/
theorem addMeasures_keys (measLabels : List String) (labelAt : Nat → String)
    (hlab : ∀ i, i < measLabels.length → labelAt i = measLabels.getD i "")
    (row : Row) (cs : List QD)
    (hnd : measLabels.Nodup) (hlen : cs.length = measLabels.length)
    (hfresh : ∀ l ∈ measLabels, l ∉ rowKeys row) :
    rowKeys (addMeasures labelAt row (.cells cs)) = rowKeys row ++ measLabels := by
  have h := keys_stateFold measLabels labelAt (fun r => r)
    (fun r p => rowSet r (labelAt p.1) (qdValue p.2)) (fun _ => True) hnd hlab
    (fun s i a _ => ⟨qdValue a, rfl⟩)
    cs 0 row (fun _ _ => trivial) (by simpa using hlen) (by simpa using hfresh)
  simpa [addMeasures, List.enum] using h

/-- The key list of the flat branch's dimension part over a full-width list
of dict cells is exactly `dim_labels`. -/
theorem flatDimPart_keys (dimLabels : List String) (cs : List QD) (carried : Carried)
    (hnd : dimLabels.Nodup) (hall : ∀ c ∈ cs, ∃ qc, c = QD.cell qc)
    (hlen : cs.length = dimLabels.length) :
    rowKeys (flatDimPart dimLabels carried (QLeft.cellList cs)).1 = dimLabels := by
  have h := keys_stateFold dimLabels (dimLabelAt dimLabels) (fun s : Row × Carried => s.1)
    (fun acc p =>
      match p.2 with
      | QD.cell c =>
        let carried2 := carriedUpd acc.2 p.1 c.qText c.qElemNo
        (rowSet acc.1 (dimLabelAt dimLabels p.1) (.txt (carriedGet carried2 p.1)), carried2)
      | QD.raw _ => acc)
    (fun c => ∃ qc, c = QD.cell qc) hnd
    (fun i hi => by
      show dimLabels.getD i ("dim" ++ toString i) = dimLabels.getD i ""
      rw [List.getD_eq_getElem _ _ hi, List.getD_eq_getElem _ _ hi])
    (fun s i a ha => by
      obtain ⟨qc, rfl⟩ := ha
      exact ⟨_, rfl⟩)
    cs 0 ([], carried) hall (by simpa using hlen) (by simp [rowKeys])
  simpa [flatDimPart, List.enum] using h

/-- A leaf row at full dimension depth over well-formed measure data has
exactly the declared keys, and advances the data cursor by one. -/
theorem leafRow_uniform (dimLabels measLabels : List String) (qData : List QDataRow)
    (hnd : (dimLabels ++ measLabels).Nodup)
    (hdata : ∀ x ∈ qData, goodDataRow measLabels.length x)
    (newPath : List String) (idx : Nat)
    (hlen : newPath.length = dimLabels.length) (hidx : idx < qData.length) :
    rowKeys (leafRow dimLabels measLabels qData newPath idx).1 = dimLabels ++ measLabels
    ∧ (leafRow dimLabels measLabels qData newPath idx).2 = idx + 1 := by
  have hndD : dimLabels.Nodup := (List.nodup_append.mp hnd).1
  have hndM : measLabels.Nodup := (List.nodup_append.mp hnd).2.1
  have hdisj := (List.nodup_append.mp hnd).2.2
  have hd : qData[idx]? = some qData[idx] := List.getElem?_eq_getElem hidx
  obtain ⟨cs, hcs, hcl⟩ := hdata qData[idx] (List.getElem_mem hidx)
  have hkeys : rowKeys (addMeasures (measLabelTree measLabels)
      (leafDimRow dimLabels newPath) (.cells cs)) = dimLabels ++ measLabels := by
    rw [addMeasures_keys measLabels (measLabelTree measLabels)
      (fun i hi => by
        show measLabels.getD i ("measure" ++ toString i) = measLabels.getD i ""
        rw [List.getD_eq_getElem _ _ hi, List.getD_eq_getElem _ _ hi])
      _ cs hndM hcl
      (fun l hl => by
        rw [leafDimRow_keys dimLabels newPath hndD hlen]
        exact fun hmem => hdisj hmem hl)]
    rw [leafDimRow_keys dimLabels newPath hndD hlen]
  constructor
  · unfold leafRow
    rw [hd, hcs]
    exact hkeys
  · unfold leafRow
    rw [hd]

/-- Sibling traversal: given the per-node behavior, `flattenKids` emits one
row per leaf, in order, advancing the cursor by the total leaf count. -/
theorem flattenKids_uniform_aux (dimLabels measLabels : List String) (qData : List QDataRow)
    (d : Nat) :
    ∀ (ts : List QLeft),
      (∀ t ∈ ts, ∀ (path : List String) (idx : Nat),
        path.length + d = dimLabels.length → idx + leafCount t ≤ qData.length →
        ∃ rows, flattenNode dimLabels measLabels qData t path idx = .ok (rows, idx + leafCount t)
          ∧ rows.length = leafCount t
          ∧ ∀ r ∈ rows, rowKeys r = dimLabels ++ measLabels) →
      ∀ (path : List String) (idx : Nat),
        path.length + d = dimLabels.length → idx + leafCountList ts ≤ qData.length →
        ∃ rows, flattenKids dimLabels measLabels qData ts path idx
            = .ok (rows, idx + leafCountList ts)
          ∧ rows.length = leafCountList ts
          ∧ ∀ r ∈ rows, rowKeys r = dimLabels ++ measLabels := by
  intro ts
  induction ts with
  | nil =>
    intro _ path idx _ _
    exact ⟨[], by simp [flattenKids, leafCountList], by simp [leafCountList], by simp⟩
  | cons t ts ih =>
    intro hall path idx hp hc
    have hct : idx + leafCount t ≤ qData.length := by
      simp [leafCountList] at hc; omega
    obtain ⟨rows1, h1, hl1, hk1⟩ := hall t (by simp) path idx hp hct
    obtain ⟨rows2, h2, hl2, hk2⟩ := ih (fun u hu => hall u (by simp [hu])) path
      (idx + leafCount t) hp (by simp [leafCountList] at hc ⊢; omega)
    refine ⟨rows1 ++ rows2, ?_, by simp [hl1, hl2, leafCountList], ?_⟩
    · simp only [flattenKids, h1, h2, leafCountList]
      simp [Nat.add_assoc]
    · intro r hr
      rcases List.mem_append.mp hr with h | h
      exacts [hk1 r h, hk2 r h]

/-- `_flatten_pivot_node` on a uniform-depth dict tree with well-formed
measure data: every emitted row has exactly the declared key list. -/
theorem flattenNode_uniform (dimLabels measLabels : List String) (qData : List QDataRow)
    (hnd : (dimLabels ++ measLabels).Nodup)
    (hdata : ∀ x ∈ qData, goodDataRow measLabels.length x) :
    ∀ (t : QLeft) (d : Nat), UniformTree t d →
      ∀ (path : List String) (idx : Nat),
        path.length + d = dimLabels.length → idx + leafCount t ≤ qData.length →
        ∃ rows, flattenNode dimLabels measLabels qData t path idx = .ok (rows, idx + leafCount t)
          ∧ rows.length = leafCount t
          ∧ ∀ r ∈ rows, rowKeys r = dimLabels ++ measLabels := by
  intro t d hu
  induction hu with
  | leaf txt e =>
    intro path idx hp hc
    have hidx : idx < qData.length := by simp [leafCount] at hc; omega
    have hlen : (path ++ [txt]).length = dimLabels.length := by simp at hp ⊢; omega
    obtain ⟨hk, hi⟩ := leafRow_uniform dimLabels measLabels qData hnd hdata
      (path ++ [txt]) idx hlen hidx
    refine ⟨[(leafRow dimLabels measLabels qData (path ++ [txt]) idx).1], ?_, by simp [leafCount], ?_⟩
    · simp only [flattenNode, leafCount]
      rw [hi]
    · intro r hr
      simp only [List.mem_singleton] at hr
      exact hr ▸ hk
  | branch txt e k ks d hsub ih =>
    intro path idx hp hc
    have hp2 : (path ++ [txt]).length + d = dimLabels.length := by simp at hp ⊢; omega
    obtain ⟨rows, h, hl, hk⟩ := flattenKids_uniform_aux dimLabels measLabels qData d
      (k :: ks) ih (path ++ [txt]) idx hp2 (by simpa [leafCount] using hc)
    exact ⟨rows, by simpa [flattenNode, leafCount] using h,
      by simpa [leafCount] using hl, hk⟩

/-- Flat-branch rows over well-shaped entries have exactly the declared key
list (induction over the zipped stream, any carried state). -/
theorem flatRowsGo_keys (dimLabels measLabels : List String)
    (hnd : (dimLabels ++ measLabels).Nodup) :
    ∀ (entries : List (QLeft × QDataRow)) (carried : Carried),
      (∀ p ∈ entries,
        ((∃ cs, p.1 = QLeft.cellList cs ∧ cs.length = dimLabels.length
            ∧ ∀ c ∈ cs, ∃ qc, c = QD.cell qc)
          ∨ (dimLabels.length = 1 ∧ ∃ t n ss, p.1 = QLeft.node t n ss))
        ∧ ∃ ds, p.2 = QDataRow.cells ds ∧ ds.length = measLabels.length) →
      ∀ r ∈ flatRowsGo dimLabels measLabels entries carried,
        rowKeys r = dimLabels ++ measLabels := by
  have hndD : dimLabels.Nodup := (List.nodup_append.mp hnd).1
  have hndM : measLabels.Nodup := (List.nodup_append.mp hnd).2.1
  have hdisj := (List.nodup_append.mp hnd).2.2
  intro entries
  induction entries with
  | nil => intro _ _ r hr; simp [flatRowsGo] at hr
  | cons p rest ih =>
    rcases p with ⟨e, dd⟩
    intro carried hshape r hr
    obtain ⟨hleft, ds, hds, hdl⟩ := hshape (e, dd) (by simp)
    simp only at hleft hds
    subst hds
    have hdim : rowKeys (flatDimPart dimLabels carried e).1 = dimLabels := by
      rcases hleft with ⟨cs, hcs, hcl, hcell⟩ | ⟨h1, t, n, ss, hnode⟩
      · rw [hcs]
        exact flatDimPart_keys dimLabels cs carried hndD hcell hcl
      · rw [hnode]
        have hhd : dimLabels.headD "Dimension" = dimLabels.getD 0 "" := by
          cases dimLabels with
          | nil => simp at h1
          | cons a l => rfl
        simp only [flatDimPart]
        rw [rowKeys_rowSet_of_not_mem (by simp [rowKeys]) _]
        cases dimLabels with
        | nil => simp at h1
        | cons a l =>
          have : l = [] := by simpa using h1
          simp [this, rowKeys]
    have hrowkeys : rowKeys (addMeasures (measLabelFlat measLabels)
        (flatDimPart dimLabels carried e).1 (QDataRow.cells ds)) = dimLabels ++ measLabels := by
      rw [addMeasures_keys measLabels (measLabelFlat measLabels)
        (fun i hi => by
          show measLabels.getD i ("m" ++ toString i) = measLabels.getD i ""
          rw [List.getD_eq_getElem _ _ hi, List.getD_eq_getElem _ _ hi])
        _ ds hndM hdl
        (fun l hl => by rw [hdim]; exact fun hmem => hdisj hmem hl)]
      rw [hdim]
    simp only [flatRowsGo] at hr
    rcases List.mem_cons.mp hr with h | h
    · subst h
      exact hrowkeys
    · exact ih (flatDimPart dimLabels carried e).2 (fun q hq => hshape q (by simp [hq])) r h

/-! ## C4 — flattener row width (confirmed) -/

/-- C4: every flat row emitted by the pivot flattener — the tree branch
(`_flatten_pivot_node` over nodes with `qSubNodes`) and the flat/sparse
branch of `get_pivot_data` — has exactly
`len(dimension_labels) + len(measure_labels)` keys, the declared labels in
positional order, even when the encoding omits repeated dimension values.
Hypotheses: distinct labels, leaves at full dimension depth (tree branch),
full-width entries (flat branch), and measure rows of declared width. -/
theorem flattener_row_width (dimLabels measLabels : List String)
    (hnd : (dimLabels ++ measLabels).Nodup) :
    (∀ (qData : List QDataRow) (qLeft : List QLeft),
      (∀ x ∈ qData, goodDataRow measLabels.length x) →
      (∀ t ∈ qLeft, UniformTree t dimLabels.length) →
      leafCountList qLeft ≤ qData.length →
      ∃ rows, flattenKids dimLabels measLabels qData qLeft [] 0
          = .ok (rows, leafCountList qLeft)
        ∧ ∀ r ∈ rows, rowKeys r = dimLabels ++ measLabels
          ∧ (rowKeys r).length = dimLabels.length + measLabels.length)
    ∧ (∀ (qLeft : List QLeft) (qData : List QDataRow),
      (∀ p ∈ qLeft.zip qData,
        ((∃ cs, p.1 = QLeft.cellList cs ∧ cs.length = dimLabels.length
            ∧ ∀ c ∈ cs, ∃ qc, c = QD.cell qc)
          ∨ (dimLabels.length = 1 ∧ ∃ t n ss, p.1 = QLeft.node t n ss))
        ∧ ∃ ds, p.2 = QDataRow.cells ds ∧ ds.length = measLabels.length) →
      ∀ r ∈ flatRows dimLabels measLabels qLeft qData,
        rowKeys r = dimLabels ++ measLabels
          ∧ (rowKeys r).length = dimLabels.length + measLabels.length) := by
  constructor
  · intro qData qLeft hdata htree hcount
    obtain ⟨rows, h, _, hk⟩ := flattenKids_uniform_aux dimLabels measLabels qData
      dimLabels.length qLeft
      (fun t ht path idx hp hc =>
        flattenNode_uniform dimLabels measLabels qData hnd hdata t dimLabels.length
          (htree t ht) path idx hp hc)
      [] 0 (by simp) (by simpa using hcount)
    refine ⟨rows, by simpa using h, fun r hr => ⟨hk r hr, ?_⟩⟩
    rw [hk r hr]
    simp
  · intro qLeft qData hshape r hr
    have hk := flatRowsGo_keys dimLabels measLabels hnd (qLeft.zip qData) [] hshape r hr
    exact ⟨hk, by rw [hk]; simp⟩

/-- C4 witness: a two-dimension tree (root with two leaf children) with one
measure column and two measure rows flattens to rows keyed exactly
`["Region", "City", "Sales"]`. -/
theorem flattener_row_width_witness :
    ∃ rows, flattenKids ["Region", "City"] ["Sales"]
        [QDataRow.cells [QD.cell { qNum := some "1" }],
         QDataRow.cells [QD.cell { qNum := some "2" }]]
        [QLeft.node "North" 0 [QLeft.node "Oslo" 1 [], QLeft.node "Kyiv" 2 []]] [] 0
        = .ok (rows, 2)
      ∧ ∀ r ∈ rows, rowKeys r = ["Region", "City", "Sales"]
        ∧ (rowKeys r).length = 3 := by
  have h := (flattener_row_width ["Region", "City"] ["Sales"] (by decide)).1
    [QDataRow.cells [QD.cell { qNum := some "1" }],
     QDataRow.cells [QD.cell { qNum := some "2" }]]
    [QLeft.node "North" 0 [QLeft.node "Oslo" 1 [], QLeft.node "Kyiv" 2 []]]
    (by
      intro x hx
      simp only [List.mem_cons, List.not_mem_nil, or_false] at hx
      rcases hx with h | h
      · exact ⟨_, h, rfl⟩
      · exact ⟨_, h, rfl⟩)
    (by
      intro t ht
      simp only [List.mem_singleton] at ht
      subst ht
      refine UniformTree.branch _ _ _ _ 1 ?_
      intro s hs
      simp only [List.mem_cons, List.not_mem_nil, or_false] at hs
      rcases hs with h | h <;> (subst h; exact UniformTree.leaf _ _))
    (by decide)
  obtain ⟨rows, h1, h2⟩ := h
  refine ⟨rows, ?_, ?_⟩
  · simpa [leafCountList, leafCount] using h1
  · intro r hr
    obtain ⟨hk, hl⟩ := h2 r hr
    exact ⟨hk, by simpa using hl⟩

/-! ## Row-count lemmas for C3 -/

/-- Sibling traversal emits `leafCountList` rows, given the per-node count. -/
theorem flattenKids_count_aux (dls mls : List String) (qData : List QDataRow) :
    ∀ (ts : List QLeft),
      (∀ t ∈ ts, ∀ (path : List String) (idx : Nat), ∃ rows idx2,
        flattenNode dls mls qData t path idx = .ok (rows, idx2)
          ∧ rows.length = leafCount t) →
      ∀ (path : List String) (idx : Nat), ∃ rows idx2,
        flattenKids dls mls qData ts path idx = .ok (rows, idx2)
          ∧ rows.length = leafCountList ts := by
  intro ts
  induction ts with
  | nil => intro _ path idx; exact ⟨[], idx, rfl, rfl⟩
  | cons t ts ih =>
    intro hall path idx
    obtain ⟨rows1, idx1, h1, hl1⟩ := hall t (by simp) path idx
    obtain ⟨rows2, idx2, h2, hl2⟩ := ih (fun u hu => hall u (by simp [hu])) path idx1
    exact ⟨rows1 ++ rows2, idx2, by simp only [flattenKids, h1, h2],
      by simp [hl1, hl2, leafCountList]⟩

/-- On any dict-shaped tree, `_flatten_pivot_node` succeeds and emits one
row per leaf. -/
theorem flattenNode_count (dls mls : List String) (qData : List QDataRow) :
    ∀ t, DictTree t → ∀ (path : List String) (idx : Nat), ∃ rows idx2,
      flattenNode dls mls qData t path idx = .ok (rows, idx2)
        ∧ rows.length = leafCount t := by
  intro t h
  induction h with
  | node txt e subs hsub ih =>
    intro path idx
    cases subs with
    | nil =>
      exact ⟨[(leafRow dls mls qData (path ++ [txt]) idx).1],
        (leafRow dls mls qData (path ++ [txt]) idx).2, rfl, by simp [leafCount]⟩
    | cons s ss =>
      obtain ⟨rows, idx2, h2, hl⟩ := flattenKids_count_aux dls mls qData (s :: ss) ih
        (path ++ [txt]) idx
      exact ⟨rows, idx2, by simpa [flattenNode] using h2, by simpa [leafCount] using hl⟩

/-- The flat branch emits one row per zipped entry. -/
theorem flatRowsGo_length (dls mls : List String) :
    ∀ (entries : List (QLeft × QDataRow)) (carried : Carried),
      (flatRowsGo dls mls entries carried).length = entries.length := by
  intro entries
  induction entries with
  | nil => intro carried; rfl
  | cons p rest ih =>
    rcases p with ⟨e, d⟩
    intro carried
    simp [flatRowsGo, ih]

/-- An honest page flattens successfully to at most the requested number of
rows. -/
theorem flattenPage_rows_le (dls mls : List String) (pg : PivotPage) (hgt : Nat)
    (h : pageHonest pg hgt) :
    ∀ rows, flattenPage dls mls pg = .ok rows → rows.length ≤ hgt := by
  intro rows hr
  unfold flattenPage at hr
  by_cases ht : usesTreeFormat pg.qLeft = true
  · rw [if_pos ht] at hr
    obtain ⟨rows2, idx2, h2, hl⟩ := flattenKids_count_aux dls mls pg.qData pg.qLeft
      (fun t htm => flattenNode_count dls mls pg.qData t (h.1 ht t htm)) [] 0
    rw [h2] at hr
    have hcount : pageRowCount pg = leafCountList pg.qLeft := by
      simp [pageRowCount, ht]
    have : rows = rows2 := by
      have := Except.ok.inj hr
      exact this.symm
    subst this
    rw [hl, ← hcount]
    exact h.2
  · rw [if_neg ht] at hr
    have : rows = flatRows dls mls pg.qLeft pg.qData := (Except.ok.inj hr).symm
    subst this
    have hcount : pageRowCount pg = min pg.qLeft.length pg.qData.length := by
      simp [pageRowCount, ht]
    rw [flatRows, flatRowsGo_length, List.length_zip, ← hcount]
    exact h.2

/-- `clientFilter` of an empty selection dict is the identity. -/
theorem clientFilter_nil (df dl : List String) (rows : List Row) :
    clientFilter df dl [] rows = rows := rfl

/-- Each `clientFilter` pass only removes rows. -/
theorem clientFilter_length_le (df dl : List String) :
    ∀ (sels : List (String × List RVal)) (rows : List Row),
      (clientFilter df dl sels rows).length ≤ rows.length := by
  intro sels
  induction sels with
  | nil => intro rows; simp [clientFilter]
  | cons s rest ih =>
    intro rows
    have h1 : (clientFilterStep df dl rows s).length ≤ rows.length := by
      unfold clientFilterStep
      split
      · exact List.length_filter_le _ _
      · exact List.length_filter_le _ _
    calc (clientFilter df dl (s :: rest) rows).length
        = (clientFilter df dl rest (clientFilterStep df dl rows s)).length := rfl
      _ ≤ (clientFilterStep df dl rows s).length := ih _
      _ ≤ rows.length := h1

/-- `get_pivot_data` never returns more than `page_size` rows. -/
theorem getPivotData_rows_le (env : PivotEnv) (oid : String) (page ps : Nat)
    (sels : List (String × List RVal)) (bm : Option String)
    (hhon : pivotFetchHonest env) :
    ∀ r, getPivotData env oid page ps sels bm = .ok r → r.data.length ≤ ps := by
  intro r hr
  unfold getPivotData at hr
  dsimp only [] at hr
  split at hr
  · cases hr
    simp
  · split at hr
    · exact Except.noConfusion hr
    · next rows heq =>
      split at hr
      · cases hr
        exact List.length_take_le _ _
      · next hna =>
        cases hr
        have hsel : sels = [] := by
          have h1 : (decide ¬(sels = [])) = false := by
            revert hna
            cases h : (decide ¬(sels = [])) <;> simp
          exact not_not.mp (of_decide_eq_false h1)
        subst hsel
        simp only [clientFilter_nil]
        split at heq
        · next hpg =>
          rw [if_neg hna] at hpg
          cases heq
          simp
        · next pg hpg =>
          rw [if_neg hna] at hpg
          exact flattenPage_rows_le _ _ pg ps (hhon _ _ _ pg hpg) rows heq

/-- Folding row-removing passes never grows the list. -/
theorem foldl_length_le {β : Type} (step : List Row → β → List Row)
    (hstep : ∀ (rows : List Row) (b : β), (step rows b).length ≤ rows.length) :
    ∀ (bs : List β) (rows : List Row), (bs.foldl step rows).length ≤ rows.length := by
  intro bs
  induction bs with
  | nil => intro rows; simp
  | cons b bs ih =>
    intro rows
    exact le_trans (ih (step rows b)) (hstep rows b)

/-- The session path's client-side filter only removes rows. -/
theorem sessionFilter_length_le (sd : List (String × String))
    (sels : List (String × List RVal)) (rows : List Row) :
    (sessionFilter sd sels rows).length ≤ rows.length := by
  unfold sessionFilter
  split
  · apply foldl_length_le
    intro rows' sel
    split
    · exact List.length_filter_le _ _
    · exact le_refl _
  · exact le_refl _

/-- The direct path's client-side filter only removes rows. -/
theorem directFilters_length_le (dd : List (String × String))
    (filters : List (String × RVal)) (rows : List Row) :
    (directFilters dd filters rows).length ≤ rows.length := by
  unfold directFilters
  apply foldl_length_le
  intro rows' f
  exact List.length_filter_le _ _

/-- The session fetch never requests more than `page_size` rows. -/
theorem sessionFetchRows_le (stot page ps : Nat) : sessionFetchRows stot page ps ≤ ps := by
  unfold sessionFetchRows
  split
  · exact Nat.min_le_left _ _
  · exact Nat.zero_le _

/-- Without filters, the direct fetch never requests more than `page_size`
rows. -/
theorem directFetchRows_le_pageSize (env : ObjEnv) (page ps : Nat) :
    directFetchRows env page ps [] ≤ ps := by
  unfold directFetchRows
  dsimp only []
  split
  · exact le_trans (Nat.min_le_left _ _) (by simp)
  · exact Nat.zero_le _

/-- The direct fetch never requests more than `max_safe_rows` rows. -/
theorem directFetchRows_le_cap (env : ObjEnv) (page ps : Nat)
    (filters : List (String × RVal)) :
    directFetchRows env page ps filters ≤ directMaxSafeRows env := by
  unfold directFetchRows
  dsimp only []
  split
  · exact le_trans (Nat.min_le_left _ _) (Nat.min_le_right _ _)
  · exact Nat.zero_le _

/-- A successful `fetchAttempt` returns at most the requested rows, given an
honest engine. -/
theorem fetchAttempt_rows_le (env : ObjEnv) (top rows width : Nat)
    (hhon : matrixHonest env.directFetch) :
    ∀ m acts, fetchAttempt env top rows width = (.ok m, acts) → m.length ≤ rows := by
  intro m acts h
  unfold fetchAttempt at h
  split at h
  · next hfe =>
    injection h with h1 h2
    injection h1 with h1
    exact h1 ▸ hhon top rows width _ hfe
  · next e hfe =>
    dsimp only [] at h
    split at h
    · split at h
      · injection h with h1 _
        exact le_trans (hhon top (rows / 2) width m h1) (Nat.div_le_self _ _)
      · injection h with h1 _
        exact Except.noConfusion h1
    · injection h with h1 _
      exact Except.noConfusion h1

/-- Every request issued by `fetchAttempt` targets the given offset with at
most the originally requested height. -/
theorem fetchAttempt_heights_le (env : ObjEnv) (top rows width : Nat) :
    ∀ res acts, fetchAttempt env top rows width = (res, acts) →
      ∀ t h, EAction.directRead t h ∈ acts → t = top ∧ h ≤ rows := by
  intro res acts hfa t h hmem
  unfold fetchAttempt at hfa
  split at hfa
  · injection hfa with _ h2
    subst h2
    simp at hmem
    exact ⟨hmem.1, le_of_eq hmem.2⟩
  · dsimp only [] at hfa
    split at hfa
    · split at hfa
      · injection hfa with _ h2
        subst h2
        simp at hmem
        rcases hmem with ⟨h1, h2⟩ | ⟨h1, h2⟩
        · exact ⟨h1, le_of_eq h2⟩
        · exact ⟨h1, le_trans (le_of_eq h2) (Nat.div_le_self _ _)⟩
      · injection hfa with _ h2
        subst h2
        simp at hmem
        exact ⟨hmem.1, le_of_eq hmem.2⟩
    · injection hfa with _ h2
      subst h2
      simp at hmem
      exact ⟨hmem.1, le_of_eq hmem.2⟩

/-- A successful session path returns at most `page_size` rows. -/
theorem sessionPath_rows_le (env : ObjEnv) (oid aid : String) (page ps : Nat)
    (sels : List (String × List RVal)) (hhon : matrixHonest env.sessionFetch) :
    ∀ r, (sessionPath env oid aid page ps sels).1 = some (.ok r) →
      r.data.length ≤ ps := by
  intro r hr
  unfold sessionPath at hr
  dsimp only [] at hr
  split at hr
  · simp at hr
  · split at hr
    · simp at hr
    · next stot hstot =>
      split at hr
      · simp at hr
      · next matrix hm =>
        simp only [Option.some.injEq] at hr
        cases Except.ok.inj hr
        dsimp only []
        have hmat : matrix.length ≤ sessionFetchRows stot page ps := by
          by_cases hf : sessionFetchRows stot page ps > 0
          · rw [if_pos hf] at hm
            exact hhon _ _ _ _ hm
          · rw [if_neg hf] at hm
            cases Except.ok.inj hm
            simp
        calc (sessionFilter (sessionDims env.dimInfo) sels
                (matrix.map (sessionRow ((sessionDims env.dimInfo).map (fun p => p.2))
                  (sessionMeasPass2 (sessionMeasPass1 env.propMeasures) env.measInfo).2))).length
            ≤ (matrix.map (sessionRow ((sessionDims env.dimInfo).map (fun p => p.2))
                (sessionMeasPass2 (sessionMeasPass1 env.propMeasures) env.measInfo).2)).length :=
              sessionFilter_length_le _ _ _
          _ = matrix.length := List.length_map _ _
          _ ≤ sessionFetchRows stot page ps := hmat
          _ ≤ ps := sessionFetchRows_le _ _ _

/-- A successful direct path returns at most `page_size` rows. -/
theorem directPath_rows_le (env : ObjEnv) (oid aid : String) (page ps : Nat)
    (filters : List (String × RVal)) (hhon : matrixHonest env.directFetch) :
    ∀ r, (directPath env oid aid page ps filters).1 = .ok r → r.data.length ≤ ps := by
  intro r hr
  unfold directPath at hr
  dsimp only [] at hr
  split at hr
  · next e acts heq =>
    simp at hr
  · next matrix acts heq =>
    split at hr
    · -- filters ≠ []
      split at hr
      · simp at hr
      · cases Except.ok.inj hr
        exact List.length_take_le _ _
    · -- filters = []
      next hfil =>
      have hfe : filters = [] := not_not.mp (by simpa using hfil)
      subst hfe
      split at hr
      · simp at hr
      · cases Except.ok.inj hr
        have hmat : matrix.length ≤ directFetchRows env page ps [] := by
          by_cases hf : directFetchRows env page ps [] > 0
          · rw [if_pos hf] at heq
            exact fetchAttempt_rows_le env _ _ _ hhon matrix acts heq
          · rw [if_neg hf] at heq
            injection heq with h1 _
            cases Except.ok.inj h1
            simp
        refine le_trans (directFilters_length_le _ _ _) ?_
        rw [List.length_map]
        exact le_trans hmat (directFetchRows_le_pageSize _ _ _)

/-- Every `get_object_data` result is a pivot result, a session-path result
or a direct-path result. -/
theorem getObjectData_result_cases (env : ObjEnv) (oid aid : String) (page ps : Nat)
    (filters : List (String × RVal)) (sels : List (String × List RVal))
    (bm : Option String) :
    (∃ pd, getPivotData env.pivot oid page ps [] none = .ok pd
      ∧ (getObjectData env oid aid page ps filters sels bm).1 = .ok (pivotToObj aid pd))
    ∨ (∃ r0, (sessionPath env oid aid page ps sels).1 = some r0
        ∧ (getObjectData env oid aid page ps filters sels bm).1 = r0)
    ∨ (getObjectData env oid aid page ps filters sels bm).1
        = (directPath env oid aid page ps filters).1 := by
  unfold getObjectData getObjectDataCore fallbackChain
  dsimp only []
  split
  · rcases hpv : getPivotData env.pivot oid page ps [] none with e | pd
    · dsimp only []
      rcases hsp : sessionPath env oid aid page ps sels with ⟨r0, acts⟩
      rcases r0 with _ | r0
      · exact Or.inr (Or.inr rfl)
      · exact Or.inr (Or.inl ⟨r0, rfl, rfl⟩)
    · dsimp only []
      rcases hhd : pd.data.head? with _ | fr
      · exact Or.inl ⟨pd, rfl, rfl⟩
      · dsimp only []
        split
        · exact Or.inl ⟨pd, rfl, rfl⟩
        · dsimp only []
          rcases hsp : sessionPath env oid aid page ps sels with ⟨r0, acts⟩
          rcases r0 with _ | r0
          · exact Or.inr (Or.inr rfl)
          · exact Or.inr (Or.inl ⟨r0, rfl, rfl⟩)
  · exact Or.inr (Or.inr rfl)

/-! ## C3 — returned row count never exceeds `page_size` (confirmed) -/

/-- C3: for every successful `get_pivot_data` and `get_object_data` call,
the returned `data` list never holds more than `page_size` rows, in every
fetch regime (tree response, flat/sparse response, filtered fetch-all,
unfiltered fetch-exact-page, session fallback and direct reads), provided
the engine honors the requested window heights (`pivotFetchHonest`,
`matrixHonest`). -/
theorem rows_never_exceed_page_size :
    (∀ (env : PivotEnv) (oid : String) (page ps : Nat)
        (sels : List (String × List RVal)) (bm : Option String),
      pivotFetchHonest env →
      ∀ r, getPivotData env oid page ps sels bm = .ok r → r.data.length ≤ ps)
    ∧ (∀ (env : ObjEnv) (oid aid : String) (page ps : Nat)
        (filters : List (String × RVal)) (sels : List (String × List RVal))
        (bm : Option String),
      pivotFetchHonest env.pivot → matrixHonest env.sessionFetch →
      matrixHonest env.directFetch →
      ∀ r, (getObjectData env oid aid page ps filters sels bm).1 = .ok r →
        r.data.length ≤ ps) := by
  constructor
  · intro env oid page ps sels bm hhon r hr
    exact getPivotData_rows_le env oid page ps sels bm hhon r hr
  · intro env oid aid page ps filters sels bm hp hs hd r hr
    rcases getObjectData_result_cases env oid aid page ps filters sels bm with
      ⟨pd, hpv, hres⟩ | ⟨r0, hsp, hres⟩ | hres
    · rw [hres] at hr
      cases Except.ok.inj hr
      have := getPivotData_rows_le env.pivot oid page ps [] none hp pd hpv
      simpa [pivotToObj] using this
    · rw [hres] at hr
      subst hr
      exact sessionPath_rows_le env oid aid page ps sels hs r hsp
    · rw [hres] at hr
      exact directPath_rows_le env oid aid page ps filters hd r hr

/-- C3 witness: `rows_never_exceed_page_size` applied to the concrete
direct-path environment (150 rows, page 2 of size 100, engine returns the
50 remaining rows). -/
theorem rows_never_exceed_page_size_witness :
    (getObjectData directEnvA "obj" "app" 2 100 [] [] none).1
        = .ok ⟨"obj", some "app", List.replicate 50 [("D", RVal.txt "x")],
               ⟨2, 50, 150, 3, true, true⟩⟩
    ∧ (List.replicate 50 ([("D", RVal.txt "x")] : Row)).length ≤ 100 := by
  constructor
  · rfl
  · exact rows_never_exceed_page_size.2 directEnvA "obj" "app" 2 100 [] [] none
      (by intro top hgt w pg h; simp [directEnvA] at h)
      (by
        intro top hgt w m h
        simp only [directEnvA] at h
        cases Except.ok.inj h
        simp)
      (by
        intro top hgt w m h
        simp only [directEnvA] at h
        cases Except.ok.inj h
        simp)
      _ rfl

/-! ## Session-path lemmas for C2 -/

/-- Once a key is present it survives any further fold steps that only add
or overwrite entries. -/
theorem foldl_key_preserve {α : Type} (step : Row → α → Row) (k : String)
    (hmono : ∀ (r : Row) (a : α), k ∈ rowKeys r → k ∈ rowKeys (step r a)) :
    ∀ (xs : List α) (r : Row), k ∈ rowKeys r → k ∈ rowKeys (xs.foldl step r) := by
  intro xs
  induction xs with
  | nil => intro r h; exact h
  | cons a xs ih => intro r h; exact ih _ (hmono r a h)

/-- A key set by some step of the fold is present in the result. -/
theorem foldl_key_mem {α : Type} (step : Row → α → Row) (k : String)
    (hmono : ∀ (r : Row) (a : α), k ∈ rowKeys r → k ∈ rowKeys (step r a)) :
    ∀ (xs : List α) (r : Row) (a : α), a ∈ xs →
      (∀ r' : Row, k ∈ rowKeys (step r' a)) →
      k ∈ rowKeys (xs.foldl step r) := by
  intro xs
  induction xs with
  | nil => intro r a ha _; cases ha
  | cons b xs ih =>
    intro r a ha hhit
    rcases List.mem_cons.mp ha with rfl | hax
    · exact foldl_key_preserve step k hmono xs _ (hhit r)
    · exact ih (step r b) a hax hhit

/-- Folding row-removing passes only keeps rows of the input. -/
theorem foldl_subset {β : Type} (step : List Row → β → List Row)
    (hstep : ∀ (rows : List Row) (b : β) (r : Row), r ∈ step rows b → r ∈ rows) :
    ∀ (bs : List β) (rows : List Row) (r : Row), r ∈ bs.foldl step rows → r ∈ rows := by
  intro bs
  induction bs with
  | nil => intro rows r h; exact h
  | cons b bs ih => intro rows r h; exact hstep rows b r (ih (step rows b) r h)

/-- The session-path filter only keeps rows of the input. -/
theorem sessionFilter_subset (sd : List (String × String))
    (sels : List (String × List RVal)) (rows : List Row) :
    ∀ r ∈ sessionFilter sd sels rows, r ∈ rows := by
  intro r h
  unfold sessionFilter at h
  split at h
  · refine foldl_subset _ ?_ sels rows r h
    intro rows' sel r' h'
    split at h'
    · exact List.mem_of_mem_filter h'
    · exact h'
  · exact h

/-- When every dimension has a non-empty field, `sessionDims` keeps them
all, in order. -/
theorem sessionDims_go :
    ∀ (dims : List DimInfo) (acc : List (String × String)),
      (∀ d ∈ dims, d.qGroupFieldDefs.headD d.qFallbackTitle ≠ "") →
      dims.foldl
        (fun acc d =>
          let label := d.qFallbackTitle
          let field := d.qGroupFieldDefs.headD label
          if field ≠ "" then acc ++ [(field, label)] else acc)
        acc
      = acc ++ dims.map (fun d => (d.qGroupFieldDefs.headD d.qFallbackTitle, d.qFallbackTitle)) := by
  intro dims
  induction dims with
  | nil => intro acc _; simp
  | cons d dims ih =>
    intro acc hf
    have hd := hf d (by simp)
    simp only [List.foldl_cons]
    rw [if_pos hd, ih _ (fun d' hd' => hf d' (by simp [hd']))]
    simp

/-- `sessionDims` under all-non-empty fields. -/
theorem sessionDims_all (dims : List DimInfo)
    (hf : ∀ d ∈ dims, d.qGroupFieldDefs.headD d.qFallbackTitle ≠ "") :
    sessionDims dims
      = dims.map (fun d => (d.qGroupFieldDefs.headD d.qFallbackTitle, d.qFallbackTitle)) := by
  have h := sessionDims_go dims [] hf
  simpa [sessionDims] using h

/-- A session row over a wide-enough matrix row contains every dimension
label as a key. -/
theorem sessionRow_dim_keys (dls mls : List String) (row : List QCell)
    (hw : dls.length ≤ row.length) :
    ∀ l ∈ dls, l ∈ rowKeys (sessionRow dls mls row) := by
  intro l hl
  obtain ⟨⟨i, hi⟩, hget⟩ := List.mem_iff_get.mp hl
  have hir : i < row.length := lt_of_lt_of_le hi hw
  have hmem : (i, row[i]) ∈ row.enum :=
    List.mk_mem_enum_iff_getElem?.mpr (List.getElem?_eq_getElem hir)
  unfold sessionRow
  refine foldl_key_mem _ l ?_ row.enum [] (i, row[i]) hmem ?_
  · intro r a h
    dsimp only []
    split
    · exact mem_rowKeys_rowSet _ _ h
    · split
      · exact mem_rowKeys_rowSet _ _ h
      · exact h
  · intro r'
    dsimp only []
    rw [if_pos hi]
    have : dls.getD i "" = l := by
      rw [List.getD_eq_getElem _ _ hi]
      simpa using hget
    rw [this]
    exact self_mem_rowKeys_rowSet _ _ _

/-- Under a healthy session oracle the fallback succeeds and every returned
row carries every declared dimension label. -/
theorem sessionPath_success (env : ObjEnv) (oid aid : String) (page ps : Nat)
    (sels : List (String × List RVal))
    (hsc : env.sessionCreate = .ok ())
    (stot : Nat) (hst : env.sessionTotalRows = .ok stot)
    (hsf : ∀ top hgt w, ∃ m, env.sessionFetch top hgt w = .ok m
      ∧ ∀ row ∈ m, env.dimInfo.length ≤ row.length)
    (hfield : ∀ d ∈ env.dimInfo, d.qGroupFieldDefs.headD d.qFallbackTitle ≠ "") :
    ∃ r, (sessionPath env oid aid page ps sels).1 = some (.ok r)
      ∧ ∀ row ∈ r.data, ∀ d ∈ env.dimInfo, d.qFallbackTitle ∈ rowKeys row := by
  have hdls : (sessionDims env.dimInfo).map (fun p => p.2)
      = env.dimInfo.map (fun d => d.qFallbackTitle) := by
    rw [sessionDims_all env.dimInfo hfield, List.map_map]
    rfl
  have hdlen : ((sessionDims env.dimInfo).map (fun p => p.2)).length
      = env.dimInfo.length := by
    rw [hdls, List.length_map]
  unfold sessionPath
  rw [hsc, hst]
  dsimp only []
  by_cases hf : sessionFetchRows stot page ps > 0
  · obtain ⟨m, hm, hwide⟩ := hsf (sessionStartRow page ps) (sessionFetchRows stot page ps)
      ((sessionDims env.dimInfo).length
        + (sessionMeasPass2 (sessionMeasPass1 env.propMeasures) env.measInfo).1.length)
    rw [if_pos hf, hm]
    dsimp only []
    refine ⟨_, rfl, ?_⟩
    intro row hrow d hd
    have hsub := sessionFilter_subset _ _ _ row hrow
    obtain ⟨row0, hrow0, rfl⟩ := List.mem_map.mp hsub
    have hl : d.qFallbackTitle ∈ (sessionDims env.dimInfo).map (fun p => p.2) := by
      rw [hdls]
      exact List.mem_map_of_mem _ hd
    exact sessionRow_dim_keys _ _ row0 (by rw [hdlen]; exact hwide row0 hrow0)
      d.qFallbackTitle hl
  · rw [if_neg hf]
    dsimp only []
    refine ⟨_, rfl, ?_⟩
    intro row hrow
    have := sessionFilter_subset _ _ _ row hrow
    simp at this

/-- Every session-path trace records the `CreateSessionObject` call. -/
theorem sessionPath_trace_create (env : ObjEnv) (oid aid : String) (page ps : Nat)
    (sels : List (String × List RVal)) :
    EAction.createSession ∈ (sessionPath env oid aid page ps sels).2 := by
  unfold sessionPath
  dsimp only []
  split
  · simp
  · split
    · simp
    · split
      · simp
      · simp

/-- Every fallback-chain trace records the `CreateSessionObject` call. -/
theorem fallbackChain_trace_create (env : ObjEnv) (oid aid : String) (page ps : Nat)
    (filters : List (String × RVal)) (sels : List (String × List RVal)) :
    EAction.createSession ∈ (fallbackChain env oid aid page ps filters sels).2 := by
  unfold fallbackChain
  rcases hsp : sessionPath env oid aid page ps sels with ⟨r0, acts⟩
  have hc : EAction.createSession ∈ acts := by
    have h := sessionPath_trace_create env oid aid page ps sels
    rw [hsp] at h
    exact h
  rcases r0 with _ | r0
  · dsimp only []
    exact List.mem_append_left _ hc
  · exact hc

/-- The collapsed path when the pivot read fully succeeds: the pivot result
is returned directly and the trace is exactly the pre-read actions, the
pivot read, and the clear/disconnect epilogue. -/
theorem getObjectData_branch_success (env : ObjEnv) (oid aid : String) (page ps : Nat)
    (filters : List (String × RVal)) (sels : List (String × List RVal))
    (bm : Option String) (hc : isCollapsed env ∨ isEmptyPivot env)
    (pd : PivotResult) (hpv : getPivotData env.pivot oid page ps [] none = .ok pd)
    (hcov : ∀ fr, pd.data.head? = some fr →
      env.dimInfo.length ≤ dimCoverage env.dimInfo (rowKeys fr)) :
    getObjectData env oid aid page ps filters sels bm
      = (.ok (pivotToObj aid pd),
         preTraceActs bm sels ++ selectionActs sels ++ EAction.pivotRead ::
           ((if sels ≠ [] then [EAction.clearAll] else []) ++ finalActs sels)) := by
  unfold getObjectData getObjectDataCore
  dsimp only []
  rw [if_pos hc, hpv]
  dsimp only []
  rcases hhd : pd.data.head? with _ | fr
  · dsimp only []
    simp [List.append_assoc]
  · dsimp only []
    rw [if_pos (hcov fr hhd)]
    simp [List.append_assoc]

/-- The collapsed path when the pivot read is incomplete: the result is the
fallback chain's and the trace embeds its actions after the pivot read. -/
theorem getObjectData_branch_fallback (env : ObjEnv) (oid aid : String) (page ps : Nat)
    (filters : List (String × RVal)) (sels : List (String × List RVal))
    (bm : Option String) (hc : isCollapsed env ∨ isEmptyPivot env)
    (hinc : pivotIncomplete env oid page ps) :
    getObjectData env oid aid page ps filters sels bm
      = ((fallbackChain env oid aid page ps filters sels).1,
         preTraceActs bm sels ++ selectionActs sels ++ EAction.pivotRead ::
           ((fallbackChain env oid aid page ps filters sels).2 ++ finalActs sels)) := by
  unfold getObjectData getObjectDataCore
  dsimp only []
  rw [if_pos hc]
  rcases hinc with ⟨e, hpv⟩ | ⟨pd, fr, hpv, hhd, hcov⟩
  · rw [hpv]
    dsimp only []
    simp [List.append_assoc]
  · rw [hpv]
    dsimp only []
    rw [hhd]
    dsimp only []
    rw [if_neg (by omega)]
    simp [List.append_assoc]

/-- **C2.** On a collapsed pivot (`visible_columns < D`, `D > 0`) or an
empty hypercube with dimensions, `get_object_data` first attempts the
pivot-read path (the trace puts the pivot read before any session creation
or direct read); it creates the disposable session hypercube exactly when
the pivot read errors or its first returned row covers fewer than `D`
dimension labels; if the pivot read fully succeeds the pivot result is
returned directly and applied selections are cleared; and when the fallback
runs against a healthy session oracle delivering full-width rows, every row
of the returned result contains all `D` dimension keys. -/
theorem collapsed_pivot_fallback (env : ObjEnv) (oid aid : String) (page ps : Nat)
    (filters : List (String × RVal)) (sels : List (String × List RVal)) (bm : Option String)
    (hc : isCollapsed env ∨ isEmptyPivot env)
    (hsc : env.sessionCreate = .ok ())
    (stot : Nat) (hst : env.sessionTotalRows = .ok stot)
    (hsf : ∀ top hgt w, ∃ m, env.sessionFetch top hgt w = .ok m
      ∧ ∀ row ∈ m, env.dimInfo.length ≤ row.length)
    (hfield : ∀ d ∈ env.dimInfo, d.qGroupFieldDefs.headD d.qFallbackTitle ≠ "") :
    (∃ pre post, (getObjectData env oid aid page ps filters sels bm).2
        = pre ++ EAction.pivotRead :: post
        ∧ EAction.createSession ∉ pre ∧ ∀ t r, EAction.directRead t r ∉ pre)
    ∧ (EAction.createSession ∈ (getObjectData env oid aid page ps filters sels bm).2
        ↔ pivotIncomplete env oid page ps)
    ∧ (∀ pd, getPivotData env.pivot oid page ps [] none = .ok pd →
        (∀ fr, pd.data.head? = some fr →
          env.dimInfo.length ≤ dimCoverage env.dimInfo (rowKeys fr)) →
        (getObjectData env oid aid page ps filters sels bm).1 = .ok (pivotToObj aid pd)
          ∧ (sels ≠ [] →
              EAction.clearAll ∈ (getObjectData env oid aid page ps filters sels bm).2))
    ∧ (pivotIncomplete env oid page ps →
        ∃ r, (getObjectData env oid aid page ps filters sels bm).1 = .ok r
          ∧ ∀ row ∈ r.data, ∀ d ∈ env.dimInfo, d.qFallbackTitle ∈ rowKeys row) := by
  have hnopre : ∀ a ∈ preTraceActs bm sels ++ selectionActs sels,
      a ≠ EAction.createSession ∧ ∀ t r, a ≠ EAction.directRead t r := by
    intro a ha
    rcases List.mem_append.mp ha with h | h
    · unfold preTraceActs selectionActs at h
      rcases List.mem_append.mp h with h | h
      · rcases bm with _ | b
        · simp at h
        · simp at h
          subst h
          exact ⟨(fun hx => nomatch hx), (fun t r hx => nomatch hx)⟩
      · obtain ⟨s, _, rfl⟩ := List.mem_map.mp h
        exact ⟨(fun hx => nomatch hx), (fun t r hx => nomatch hx)⟩
    · unfold selectionActs at h
      obtain ⟨s, _, rfl⟩ := List.mem_map.mp h
      exact ⟨(fun hx => nomatch hx), (fun t r hx => nomatch hx)⟩
  have hfin : ∀ a ∈ finalActs sels, a ≠ EAction.createSession := by
    intro a ha
    unfold finalActs at ha
    rcases List.mem_append.mp ha with h | h
    · by_cases hs : sels ≠ []
      · rw [if_pos hs] at h
        simp at h
        subst h
        exact fun hx => nomatch hx
      · rw [if_neg hs] at h
        simp at h
    · simp at h
      subst h
      exact fun hx => nomatch hx
  have hclr : ∀ a ∈ (if sels ≠ [] then [EAction.clearAll] else []),
      a ≠ EAction.createSession := by
    intro a ha
    by_cases hs : sels ≠ []
    · rw [if_pos hs] at ha
      simp at ha
      subst ha
      exact fun hx => nomatch hx
    · rw [if_neg hs] at ha
      simp at ha
  have hnosucc : EAction.createSession ∉
      preTraceActs bm sels ++ selectionActs sels ++ EAction.pivotRead ::
        ((if sels ≠ [] then [EAction.clearAll] else []) ++ finalActs sels) := by
    intro hmem
    rcases List.mem_append.mp hmem with h | h
    · exact (hnopre _ h).1 rfl
    · rcases List.mem_cons.mp h with h | h
      · exact nomatch h
      · rcases List.mem_append.mp h with h | h
        · exact hclr _ h rfl
        · exact hfin _ h rfl
  have hfallback : pivotIncomplete env oid page ps →
      (∃ pre post, (getObjectData env oid aid page ps filters sels bm).2
          = pre ++ EAction.pivotRead :: post
          ∧ EAction.createSession ∉ pre ∧ ∀ t r, EAction.directRead t r ∉ pre)
      ∧ EAction.createSession ∈ (getObjectData env oid aid page ps filters sels bm).2
      ∧ (∃ r, (getObjectData env oid aid page ps filters sels bm).1 = .ok r
          ∧ ∀ row ∈ r.data, ∀ d ∈ env.dimInfo, d.qFallbackTitle ∈ rowKeys row) := by
    intro hinc
    have heq := getObjectData_branch_fallback env oid aid page ps filters sels bm hc hinc
    refine ⟨⟨preTraceActs bm sels ++ selectionActs sels,
        (fallbackChain env oid aid page ps filters sels).2 ++ finalActs sels,
        by rw [heq], fun h => (hnopre _ h).1 rfl, fun t r h => (hnopre _ h).2 t r rfl⟩, ?_, ?_⟩
    · rw [heq]
      exact List.mem_append_right _ (List.mem_cons_of_mem _
        (List.mem_append_left _ (fallbackChain_trace_create env oid aid page ps filters sels)))
    · obtain ⟨r, hr, hrows⟩ := sessionPath_success env oid aid page ps sels hsc stot hst hsf hfield
      refine ⟨r, ?_, hrows⟩
      rw [heq]
      show (fallbackChain env oid aid page ps filters sels).1 = .ok r
      rcases hsp : sessionPath env oid aid page ps sels with ⟨o, acts⟩
      rw [hsp] at hr
      replace hr : o = some (.ok r) := hr
      subst hr
      unfold fallbackChain
      rw [hsp]
  rcases hpv : getPivotData env.pivot oid page ps [] none with e | pd
  · have hinc : pivotIncomplete env oid page ps := Or.inl ⟨e, hpv⟩
    obtain ⟨h1, h2, h4⟩ := hfallback hinc
    refine ⟨h1, ⟨fun _ => hinc, fun _ => h2⟩, ?_, fun _ => h4⟩
    intro pd' hok _
    exact nomatch hok
  · rcases hhd : pd.data.head? with _ | fr
    · have hcov : ∀ fr, pd.data.head? = some fr →
          env.dimInfo.length ≤ dimCoverage env.dimInfo (rowKeys fr) := by
        intro fr h
        rw [hhd] at h
        exact nomatch h
      have heq := getObjectData_branch_success env oid aid page ps filters sels bm hc pd hpv hcov
      have hni : ¬ pivotIncomplete env oid page ps := by
        intro hinc
        unfold pivotIncomplete at hinc
        rcases hinc with ⟨e, he⟩ | ⟨pd', fr', hok, hh, _⟩
        · rw [hpv] at he
          exact nomatch he
        · rw [hpv] at hok
          injection hok with hpd
          subst hpd
          rw [hhd] at hh
          exact nomatch hh
      refine ⟨?_, ?_, ?_, fun hinc => absurd hinc hni⟩
      · exact ⟨preTraceActs bm sels ++ selectionActs sels,
          (if sels ≠ [] then [EAction.clearAll] else []) ++ finalActs sels,
          by rw [heq], fun h => (hnopre _ h).1 rfl, fun t r h => (hnopre _ h).2 t r rfl⟩
      · constructor
        · intro hmem
          rw [heq] at hmem
          exact absurd hmem hnosucc
        · intro hinc
          exact absurd hinc hni
      · intro pd' hok _
        injection hok with hpd
        subst hpd
        rw [heq]
        refine ⟨rfl, fun hs => ?_⟩
        exact List.mem_append_right _ (List.mem_cons_of_mem _
          (List.mem_append_right _ (by simp [finalActs, hs])))
    · by_cases hcv : env.dimInfo.length ≤ dimCoverage env.dimInfo (rowKeys fr)
      · have hcov : ∀ fr', pd.data.head? = some fr' →
            env.dimInfo.length ≤ dimCoverage env.dimInfo (rowKeys fr') := by
          intro fr' h
          rw [hhd] at h
          injection h with h
          subst h
          exact hcv
        have heq := getObjectData_branch_success env oid aid page ps filters sels bm hc pd hpv hcov
        have hni : ¬ pivotIncomplete env oid page ps := by
          intro hinc
          unfold pivotIncomplete at hinc
          rcases hinc with ⟨e, he⟩ | ⟨pd', fr', hok, hh, hlt⟩
          · rw [hpv] at he
            exact nomatch he
          · rw [hpv] at hok
            injection hok with hpd
            subst hpd
            rw [hhd] at hh
            injection hh with hh
            subst hh
            omega
        refine ⟨?_, ?_, ?_, fun hinc => absurd hinc hni⟩
        · exact ⟨preTraceActs bm sels ++ selectionActs sels,
            (if sels ≠ [] then [EAction.clearAll] else []) ++ finalActs sels,
            by rw [heq], fun h => (hnopre _ h).1 rfl, fun t r h => (hnopre _ h).2 t r rfl⟩
        · constructor
          · intro hmem
            rw [heq] at hmem
            exact absurd hmem hnosucc
          · intro hinc
            exact absurd hinc hni
        · intro pd' hok _
          injection hok with hpd
          subst hpd
          rw [heq]
          refine ⟨rfl, fun hs => ?_⟩
          exact List.mem_append_right _ (List.mem_cons_of_mem _
            (List.mem_append_right _ (by simp [finalActs, hs])))
      · have hinc : pivotIncomplete env oid page ps :=
          Or.inr ⟨pd, fr, hpv, hhd, by omega⟩
        obtain ⟨h1, h2, h4⟩ := hfallback hinc
        refine ⟨h1, ⟨fun _ => hinc, fun _ => h2⟩, ?_, fun _ => h4⟩
        intro pd' hok hcov'
        injection hok with hpd
        subst hpd
        exact absurd (hcov' fr hhd) hcv

/-- C2 witness: a concrete collapsed pivot (one visible column, two
declared dimensions) with a healthy session oracle, instantiating the
fallback characterization. -/
theorem collapsed_pivot_fallback_witness :
    (isCollapsed c2Env ∨ isEmptyPivot c2Env)
    ∧ c2Env.sessionCreate = .ok ()
    ∧ c2Env.sessionTotalRows = .ok 2
    ∧ (EAction.createSession ∈ (getObjectData c2Env "obj" "app" 1 10 [] [] none).2
        ↔ pivotIncomplete c2Env "obj" 1 10) := by
  refine ⟨Or.inl (by decide), rfl, rfl, ?_⟩
  exact (collapsed_pivot_fallback c2Env "obj" "app" 1 10 [] [] none (Or.inl (by decide))
      rfl 2 rfl
      (fun top hgt w => ⟨List.replicate hgt [{ qText := "u" }, { qText := "w" }], rfl,
        fun row hrow => by rw [List.eq_of_mem_replicate hrow]; decide⟩)
      (by decide)).2.1

/-! ## C1 — pagination block contract (corrected) -/

/-- For positive totals the spec's `max(1, ceil)` is plain ceiling division. -/
theorem specTotalPages_of_pos (T ps : Nat) (hT : 0 < T) (hps : 1 ≤ ps) :
    specTotalPages T ps = (T + ps - 1) / ps := by
  unfold specTotalPages
  have h1 : 1 ≤ (T + ps - 1) / ps := by
    rw [Nat.le_div_iff_mul_le hps]
    omega
  omega

/-- For a zero total the spec's formula gives one page. -/
theorem specTotalPages_zero (ps : Nat) (hps : 1 ≤ ps) : specTotalPages 0 ps = 1 := by
  unfold specTotalPages
  have h0 : (0 + ps - 1) / ps = 0 := Nat.div_eq_of_lt (by omega)
  omega

/-- Reaching the direct path: a non-collapsed, non-empty object. -/
theorem getObjectData_direct (env : ObjEnv) (oid aid : String) (page ps : Nat)
    (filters : List (String × RVal)) (sels : List (String × List RVal))
    (bm : Option String) (h : ¬(isCollapsed env ∨ isEmptyPivot env)) :
    (getObjectData env oid aid page ps filters sels bm).1
      = (directPath env oid aid page ps filters).1 := by
  unfold getObjectData getObjectDataCore
  dsimp only []
  rw [if_neg h]

/-- C1 counterexample: the direct path without filters, object of 150 rows,
`page = 2`, `page_size = 100`.  The engine returns the 50 remaining rows and
the code computes `total_pages` from that *fetched* count: it reports
`total_pages = 3` and `has_next = true`, while the claim's formula gives
`max(1, ceil(150/100)) = 2` and `has_next = (2 < 2) = false` (the reported
`page_size` is also 50, not the requested 100). -/
theorem pagination_contract_cex :
    (getObjectData directEnvA "obj" "app" 2 100 [] [] none).1.map (fun r => r.pagination)
        = .ok ⟨2, 50, 150, 3, true, true⟩
    ∧ specTotalPages 150 100 = 2
    ∧ (3 : Nat) ≠ 2
    ∧ decide (2 < 2) = false := by
  exact ⟨rfl, by decide, by decide, by decide⟩

/-- C1 amended: the claimed pagination contract holds for `get_pivot_data`
(with `has_previous` hard-coded `false` on the empty-object early return)
and for `get_object_data`'s direct path *when client-side filters are
given*; without filters the direct path computes `total_pages` and
`page_size` from the actually fetched row count instead of the requested
`page_size` (see the counterexample), and the session-fallback path returns
`total_pages = 0` when the filtered count is 0. -/
theorem pagination_contract_amended :
    (∀ (env : PivotEnv) (oid : String) (page ps : Nat)
        (sels : List (String × List RVal)) (bm : Option String),
      1 ≤ page → 1 ≤ ps →
      ∀ r, getPivotData env oid page ps sels bm = .ok r →
        r.pagination.totalPages = specTotalPages r.pagination.totalRows ps
        ∧ r.pagination.hasNext = decide (page < r.pagination.totalPages)
        ∧ r.pagination.hasPrevious
            = (if env.totalRows = 0 then false else decide (page > 1))
        ∧ r.pagination.page = page ∧ r.pagination.pageSize = ps)
    ∧ (∀ (env : ObjEnv) (oid aid : String) (page ps : Nat)
        (filters : List (String × RVal)) (sels : List (String × List RVal))
        (bm : Option String),
      ¬(isCollapsed env ∨ isEmptyPivot env) → filters ≠ [] → 1 ≤ ps →
      ∀ r, (getObjectData env oid aid page ps filters sels bm).1 = .ok r →
        r.pagination.totalPages = specTotalPages r.pagination.totalRows ps
        ∧ r.pagination.hasNext = decide (page < r.pagination.totalPages)
        ∧ r.pagination.hasPrevious = decide (page > 1)
        ∧ r.pagination.page = page ∧ r.pagination.pageSize = ps) := by
  constructor
  · intro env oid page ps sels bm hpage hps r hr
    unfold getPivotData at hr
    dsimp only [] at hr
    split at hr
    · next h0 =>
      cases hr
      refine ⟨?_, ?_, ?_, rfl, rfl⟩
      · exact (specTotalPages_zero ps hps).symm
      · have : ¬(page < 1) := by omega
        simp [this]
      · rw [if_pos h0]
    · next h0 =>
      split at hr
      · exact Except.noConfusion hr
      · next rows heq =>
        split at hr
        · cases hr
          refine ⟨?_, rfl, ?_, rfl, rfl⟩
          · dsimp only []
            split
            · next hT => rw [specTotalPages_of_pos _ _ hT hps]
            · next hT =>
              have h0' : (clientFilter (pivotDimFields env) (pivotDimLabels env) sels
                  rows).length = 0 := by omega
              rw [h0', specTotalPages_zero ps hps]
          · rw [if_neg h0]
        · cases hr
          refine ⟨?_, rfl, ?_, rfl, rfl⟩
          · dsimp only []
            rw [specTotalPages_of_pos _ _ (by omega) hps]
          · rw [if_neg h0]
  · intro env oid aid page ps filters sels bm hnc hfil hps r hr
    rw [getObjectData_direct env oid aid page ps filters sels bm hnc] at hr
    unfold directPath at hr
    dsimp only [] at hr
    split at hr
    · simp at hr
    · next matrix acts heq =>
      split at hr
      · split at hr
        · simp at hr
        · cases Except.ok.inj hr
          refine ⟨?_, rfl, rfl, rfl, rfl⟩
          dsimp only []
          split
          · next hT => rw [specTotalPages_of_pos _ _ hT hps]
          · next hT =>
            have h0' : (directFilters (directDims env.dimInfo) filters
                (matrix.map (directRow ((directDims env.dimInfo).map (fun p => p.2))
                  (env.measInfo.map (fun m => m.qFallbackTitle))
                  (directColumnOrder env)))).length = 0 := by omega
            rw [h0', specTotalPages_zero ps hps]
      · next h => exact absurd hfil h

/-- C1 witness: `pagination_contract_amended` at a concrete empty pivot
object, page 1 of size 10. -/
theorem pagination_contract_amended_witness :
    ∃ r, getPivotData ⟨[], [], 0, fun _ _ _ => []⟩ "o" 1 10 [] none = .ok r
      ∧ r.pagination.totalPages = specTotalPages r.pagination.totalRows 10
      ∧ r.pagination.hasNext = decide (1 < r.pagination.totalPages) := by
  refine ⟨_, rfl, ?_, ?_⟩
  · exact (pagination_contract_amended.1 ⟨[], [], 0, fun _ _ _ => []⟩ "o" 1 10 [] none
      (by decide) (by decide) _ rfl).1
  · exact (pagination_contract_amended.1 ⟨[], [], 0, fun _ _ _ => []⟩ "o" 1 10 [] none
      (by decide) (by decide) _ rfl).2.1

/-! ## C10 — filtered direct path fetches a bounded window (confirmed) -/

/-- The direct path's full outcome inside `get_object_data`: the result is
the direct path's own and the trace wraps its actions in the pre-read and
`finally` actions. -/
theorem getObjectData_direct_trace (env : ObjEnv) (oid aid : String) (page ps : Nat)
    (filters : List (String × RVal)) (sels : List (String × List RVal))
    (bm : Option String) (h : ¬(isCollapsed env ∨ isEmptyPivot env)) :
    getObjectData env oid aid page ps filters sels bm
      = ((directPath env oid aid page ps filters).1,
         preTraceActs bm sels ++ (directPath env oid aid page ps filters).2
           ++ finalActs sels) := by
  unfold getObjectData getObjectDataCore
  dsimp only []
  rw [if_neg h]

/-- The direct path's engine actions are exactly the fetch attempt's (or
none when no rows are requested). -/
theorem directPath_trace (env : ObjEnv) (oid aid : String) (page ps : Nat)
    (filters : List (String × RVal)) :
    (directPath env oid aid page ps filters).2
      = (if directFetchRows env page ps filters > 0
         then (fetchAttempt env (directStartRow page ps filters)
                 (directFetchRows env page ps filters) (directNumColumns env)).2
         else []) := by
  unfold directPath
  dsimp only []
  by_cases hf : directFetchRows env page ps filters > 0
  · rw [if_pos hf, if_pos hf]
    rcases hfa : fetchAttempt env (directStartRow page ps filters)
        (directFetchRows env page ps filters) (directNumColumns env) with ⟨res, acts⟩
    rcases res with e | m
    · rfl
    · dsimp only []
      rw [apply_ite Prod.snd]
      simp
  · rw [if_neg hf, if_neg hf]
    dsimp only []
    rw [apply_ite Prod.snd]
    simp

/-- **C10.** In the direct (non-collapsed) path with client-side filters,
every engine data request starts at row 0 and asks for at most
`min 500 (10000 / max num_columns 1)` rows, and on success the reported
`total_rows` is the number of filter matches among the rows built from the
fetched window only (the window itself holding at most that many rows) —
not the number of matches in the whole object. -/
theorem filtered_window_total (env : ObjEnv) (oid aid : String) (page ps : Nat)
    (filters : List (String × RVal)) (sels : List (String × List RVal))
    (bm : Option String)
    (hnc : ¬(isCollapsed env ∨ isEmptyPivot env))
    (hfl : filters ≠ [])
    (hhon : matrixHonest env.directFetch) :
    (∀ t h, EAction.directRead t h ∈ (getObjectData env oid aid page ps filters sels bm).2 →
        t = 0 ∧ h ≤ min 500 (10000 / max (directNumColumns env) 1))
    ∧ ∀ r, (getObjectData env oid aid page ps filters sels bm).1 = .ok r →
        ∃ m, (m = [] ∨ (fetchAttempt env 0 (directFetchRows env page ps filters)
                (directNumColumns env)).1 = .ok m)
          ∧ m.length ≤ min 500 (10000 / max (directNumColumns env) 1)
          ∧ r.pagination.totalRows
              = (directFilters (directDims env.dimInfo) filters
                  (m.map (directRow ((directDims env.dimInfo).map (fun p => p.2))
                          (env.measInfo.map (fun mi => mi.qFallbackTitle))
                          (directColumnOrder env)))).length
          ∧ r.data
              = ((directFilters (directDims env.dimInfo) filters
                  (m.map (directRow ((directDims env.dimInfo).map (fun p => p.2))
                          (env.measInfo.map (fun mi => mi.qFallbackTitle))
                          (directColumnOrder env)))).drop ((page - 1) * ps)).take ps := by
  have hODt := getObjectData_direct_trace env oid aid page ps filters sels bm hnc
  have hsr : directStartRow page ps filters = 0 := by
    unfold directStartRow
    rw [if_pos hfl]
  have hcap : directFetchRows env page ps filters
      ≤ min 500 (10000 / max (directNumColumns env) 1) := by
    have h := directFetchRows_le_cap env page ps filters
    unfold directMaxSafeRows at h
    exact h
  constructor
  · intro t h hmem
    rw [hODt] at hmem
    dsimp only [] at hmem
    rcases List.mem_append.mp hmem with hmem | hfin2
    · rcases List.mem_append.mp hmem with hpre | hdp
      · exfalso
        unfold preTraceActs selectionActs at hpre
        rcases List.mem_append.mp hpre with h1 | h1
        · rcases bm with _ | b
          · simp at h1
          · simp at h1
        · obtain ⟨s, _, hs⟩ := List.mem_map.mp h1
          exact nomatch hs
      · rw [directPath_trace env oid aid page ps filters] at hdp
        by_cases hf : directFetchRows env page ps filters > 0
        · rw [if_pos hf] at hdp
          rcases hfa : fetchAttempt env (directStartRow page ps filters)
              (directFetchRows env page ps filters) (directNumColumns env) with ⟨res, acts⟩
          rw [hfa] at hdp
          have hth := fetchAttempt_heights_le env _ _ _ res acts hfa t h hdp
          exact ⟨by rw [hth.1, hsr], le_trans hth.2 hcap⟩
        · rw [if_neg hf] at hdp
          simp at hdp
    · exfalso
      unfold finalActs at hfin2
      rcases List.mem_append.mp hfin2 with h1 | h1
      · by_cases hs : sels ≠ []
        · rw [if_pos hs] at h1
          simp at h1
        · rw [if_neg hs] at h1
          simp at h1
      · simp at h1
  · intro r hr
    rw [hODt] at hr
    replace hr : (directPath env oid aid page ps filters).1 = .ok r := hr
    unfold directPath at hr
    dsimp only [] at hr
    by_cases hf : directFetchRows env page ps filters > 0
    · rw [if_pos hf] at hr
      rcases hfa : fetchAttempt env (directStartRow page ps filters)
          (directFetchRows env page ps filters) (directNumColumns env) with ⟨res, acts⟩
      rw [hfa] at hr
      rcases res with e | m
      · exact nomatch hr
      · dsimp only [] at hr
        simp only [if_pos hfl] at hr
        split at hr
        · exact nomatch hr
        · rw [hsr] at hfa
          injection hr with hr
          subst hr
          refine ⟨m, Or.inr (by rw [hfa]), ?_, rfl, rfl⟩
          exact le_trans
            (fetchAttempt_rows_le env 0 (directFetchRows env page ps filters)
              (directNumColumns env) hhon m acts hfa) hcap
    · rw [if_neg hf] at hr
      dsimp only [] at hr
      simp only [if_pos hfl] at hr
      split at hr
      · exact nomatch hr
      · injection hr with hr
        subst hr
        exact ⟨[], Or.inl rfl, Nat.zero_le _, rfl, rfl⟩

/-- C10 witness: the concrete one-column object of 150 rows with the filter
`D = "x"`: the theorem's request bound instantiated at the traced window
request, under hypotheses checked by `decide` and an explicitly honest
engine. -/
theorem filtered_window_total_witness :
    ¬ (isCollapsed directEnvA ∨ isEmptyPivot directEnvA)
    ∧ ([("D", RVal.txt "x")] : List (String × RVal)) ≠ []
    ∧ (EAction.directRead 0 150
          ∈ (getObjectData directEnvA "o" "a" 1 10 [("D", RVal.txt "x")] [] none).2 →
        0 = 0 ∧ 150 ≤ min 500 (10000 / max (directNumColumns directEnvA) 1)) := by
  refine ⟨by decide, by decide, ?_⟩
  exact (filtered_window_total directEnvA "o" "a" 1 10 [("D", RVal.txt "x")] [] none
      (by decide) (by decide)
      (fun top hgt w m hm => by
        injection hm with hm
        rw [← hm]
        simp)).1 0 150

/-! ## C9 — `send_request` (corrected) -/

/-- The receive loop skips every non-terminal message. -/
theorem recvLoop_all_skipped (ms : List J) (h : ∀ m ∈ ms, terminalText m = false) :
    recvLoop ms = (.error .noMessage, []) := by
  induction ms with
  | nil => rfl
  | cons m rest ih =>
    have hm := h m (by simp)
    simp [recvLoop, hm]
    exact ih (fun x hx => h x (by simp [hx]))

/-- The receive loop stops at the first terminal message. -/
theorem recvLoop_split (pre : List J) (m : J) (post : List J)
    (hpre : ∀ x ∈ pre, terminalText x = false) (hm : terminalText m = true) :
    recvLoop (pre ++ m :: post) = (terminalResult m, post) := by
  induction pre with
  | nil => simp [recvLoop, hm]
  | cons x rest ih =>
    have hx := hpre x (by simp)
    simp only [List.cons_append, recvLoop, hx]
    simp only [Bool.false_eq_true, if_false]
    exact ih (fun y hy => hpre y (by simp [hy]))

/-- C9 counterexample: the claim says messages with neither a `result` nor
an `error` key are discarded, but the source tests the substring `"result"`
on the raw message text, so the notification terminates the loop and `{}`
is returned instead of the following message's `"real"` result. -/
theorem send_request_substring_cex :
    (sendRequest cexSession "M" (J.arr []) (-1)).result = .ok (J.obj [])
    ∧ jHasKey (J.obj [("method", J.str "notify_result")]) "result" = false
    ∧ jHasKey (J.obj [("method", J.str "notify_result")]) "error" = false
    ∧ (sendRequest cexSession "M" (J.arr []) (-1)).result ≠ .ok (J.str "real") := by
  refine ⟨rfl, rfl, rfl, ?_⟩
  intro h
  exact J.noConfusion (Except.ok.inj h)

/-- C9 amended: `send_request` while disconnected raises a connection error
immediately with no I/O (nothing sent, state untouched); while connected it
sends one envelope whose id is the strictly increased request id, then reads
messages in a loop discarding every message whose *serialized text* contains
neither the substring `"result"` nor `"error"`; the first remaining message
is parsed: with an `error` key it raises an engine error carrying the error
payload, otherwise its `result` value (default `{}`) is returned. -/
theorem send_request_amended (st : WsSession) (method : String) (params : J) (handle : Int) :
    (st.connected = false →
      sendRequest st method params handle = ⟨.error .notConnected, [], st⟩)
    ∧ (st.connected = true →
        (sendRequest st method params handle).sent
            = [envelope (st.requestId + 1) handle method params]
        ∧ (sendRequest st method params handle).state.requestId = st.requestId + 1
        ∧ ((∀ m ∈ st.incoming, terminalText m = false) →
            (sendRequest st method params handle).result = .error .noMessage)
        ∧ (∀ pre m post, st.incoming = pre ++ m :: post →
            (∀ x ∈ pre, terminalText x = false) → terminalText m = true →
            (sendRequest st method params handle).result = terminalResult m
              ∧ (sendRequest st method params handle).state.incoming = post)) := by
  constructor
  · intro hc; simp [sendRequest, hc]
  · intro hc
    refine ⟨by simp [sendRequest, hc], by simp [sendRequest, hc], ?_, ?_⟩
    · intro hall
      simp [sendRequest, hc, recvLoop_all_skipped st.incoming hall]
    · intro pre m post hsplit hpre hm
      constructor
      · simp [sendRequest, hc, hsplit, recvLoop_split pre m post hpre hm]
      · simp [sendRequest, hc, hsplit, recvLoop_split pre m post hpre hm]

/-- C9 witness: `send_request_amended` applied to a concrete connected
session whose stream holds one skippable notification and one terminal
error message. -/
theorem send_request_amended_witness :
    (sendRequest ⟨true, 4, [J.obj [("method", J.str "Ping")],
        J.obj [("error", J.num 7)]]⟩ "GetLayout" (J.arr []) 2).result
      = .error (.engineError (J.num 7))
    ∧ (sendRequest ⟨true, 4, [J.obj [("method", J.str "Ping")],
        J.obj [("error", J.num 7)]]⟩ "GetLayout" (J.arr []) 2).sent
      = [envelope 5 2 "GetLayout" (J.arr [])] := by
  have h := send_request_amended ⟨true, 4, [J.obj [("method", J.str "Ping")],
    J.obj [("error", J.num 7)]]⟩ "GetLayout" (J.arr []) 2
  have h2 := h.2 rfl
  refine ⟨?_, h2.1⟩
  have h4 := h2.2.2.2 [J.obj [("method", J.str "Ping")]] (J.obj [("error", J.num 7)]) []
    rfl (by decide) (by decide)
  rw [h4.1]
  rfl

end QlikSpec
